import Mathlib

/-!
Verification development for the UiPath integration SDK
(`uipath-llamaindex-python`): shallow embeddings of the runtime adapters,
schema extraction, storage and factory code, with theorems settling the
spec claims about them.
-/

set_option maxHeartbeats 1000000

namespace UiPathSdk

/-! ## A model of Python/JSON values

Used for JSON Schema documents (`schema.py`), pickled dictionaries
(`storage.py`) and runtime input dictionaries (`runtime.py`).  Python
dictionaries are modelled as ordered association lists (insertion order,
unique keys in all values the code ever builds).
-/

inductive Json where
  | null : Json
  | bool (b : Bool) : Json
  | num (n : Int) : Json
  | str (s : String) : Json
  | arr (items : List Json) : Json
  | obj (fields : List (String × Json)) : Json

/-- Python `d.get(key)` on an association-list dictionary: the value at the
first matching key, if any. -/
def lookupKey {α : Type} (kvs : List (String × α)) (key : String) : Option α :=
  match kvs with
  | [] => none
  | (k, v) :: rest => if k = key then some v else lookupKey rest key

/-- Python `d[key] = v` on an association-list dictionary: replaces the
value at an existing key in place, otherwise appends the new pair. -/
def setKey {α : Type} (kvs : List (String × α)) (key : String) (v : α) :
    List (String × α) :=
  match kvs with
  | [] => [(key, v)]
  | (k, w) :: rest =>
      if k = key then (k, v) :: rest else (k, w) :: setKey rest key v

/-- Python truthiness of a JSON-like value (`bool(v)`). -/
def jsonTruthy : Json → Bool
  | .null => false
  | .bool b => b
  | .num n => n != 0
  | .str s => s != ""
  | .arr l => !l.isEmpty
  | .obj kvs => !kvs.isEmpty

mutual

/-- Model of Python `json.dumps` for JSON-compatible values (used by
`_serialize_trigger` in `storage.py` for dict payloads). -/
def jsonDumps : Json → String
  | .null => "null"
  | .bool true => "true"
  | .bool false => "false"
  | .num n => toString n
  | .str s => "\"" ++ s ++ "\""
  | .arr l => "[" ++ jsonDumpsList l ++ "]"
  | .obj kvs => "\x7b" ++ jsonDumpsFields kvs ++ "\x7d"

def jsonDumpsList : List Json → String
  | [] => ""
  | [j] => jsonDumps j
  | j :: rest => jsonDumps j ++ ", " ++ jsonDumpsList rest

def jsonDumpsFields : List (String × Json) → String
  | [] => ""
  | [(k, v)] => "\"" ++ k ++ "\": " ++ jsonDumps v
  | (k, v) :: rest => "\"" ++ k ++ "\": " ++ jsonDumps v ++ ", " ++ jsonDumpsFields rest

end

/-- Model of Python `str(v)` for the payload values that
`_serialize_trigger` may stringify. -/
def pyStr : Json → String
  | .str s => s
  | .num n => toString n
  | .bool true => "True"
  | .bool false => "False"
  | .null => "None"
  | .arr l => "[" ++ jsonDumpsList l ++ "]"
  | .obj kvs => "\x7b" ++ jsonDumpsFields kvs ++ "\x7d"

/-! ## `uipath_llamaindex/runtime/storage.py`: `PickleResumableStorage`

The pickle file is modelled as an optional dictionary (`none` = the file
does not exist).  Pickling a dictionary and unpickling it returns an
equal dictionary, so `pickle.dump`/`pickle.load` are modelled as the
identity on the stored dictionary.
-/

/-- Modelled from the spec: `uipath.runtime`'s `UiPathApiTrigger` record
(the class itself is an external dependency, not under `src/`); only the
fields that `storage.py` reads and writes are modelled. -/
structure UiPathApiTrigger where
  inbox_id : Option String
  request : Option Json

/-- Modelled from the spec: `uipath.runtime`'s `UiPathResumeTrigger`
record (an external dependency, not under `src/`); only the fields that
`storage.py` reads and writes are modelled.  The `trigger_type` and
`trigger_name` enum members are represented by their `.value` strings
(a Python `Enum` round-trips through its value). -/
structure UiPathResumeTrigger where
  trigger_type : String
  trigger_name : String
  item_key : Option String
  folder_path : Option String
  folder_key : Option String
  payload : Option Json
  api_resume : Option UiPathApiTrigger

/-- Modelled from the spec: the `.value` of `UiPathResumeTriggerType.API`.
The exact string is not in `src/`; no claim below depends on it. -/
def UiPathResumeTriggerTypeAPI : String := "api"

/-- The dictionary produced by `_serialize_trigger` (fixed keys `type`,
`key`, `name`, `payload`, `folder_path`, `folder_key`). -/
structure SerializedTrigger where
  ttype : String
  key : Option String
  name : String
  payload : Option String
  folder_path : Option String
  folder_key : Option String

/-- A value stored in the pickle dictionary: either the serialized resume
trigger (under key `resume_trigger`) or a workflow context dictionary
(under key `workflow_context`). -/
inductive PickleVal where
  | trig (t : SerializedTrigger)
  | ctx (c : Json)

/-- The pickled dictionary. -/
abbrev PickleDict := List (String × PickleVal)

/-- The pickle file on disk: `none` when the file does not exist. -/
abbrev FileState := Option PickleDict

/-- `PickleResumableStorage._serialize_trigger`. -/
def serialize_trigger (t : UiPathResumeTrigger) : SerializedTrigger :=
  let trigger_key : Option String :=
    match t.api_resume with
    | some a => a.inbox_id
    | none => t.item_key
  let payload : Option String :=
    match t.payload with
    | some (.obj kvs) => some (jsonDumps (.obj kvs))
    | some p => if jsonTruthy p then some (pyStr p) else none
    | none => none
  ⟨t.trigger_type, trigger_key, t.trigger_name, payload,
    t.folder_path, t.folder_key⟩

/-- `PickleResumableStorage._deserialize_trigger`. -/
def deserialize_trigger (d : SerializedTrigger) : UiPathResumeTrigger :=
  let resume_trigger : UiPathResumeTrigger :=
    ⟨d.ttype, d.name, d.key, d.folder_path, d.folder_key,
      d.payload.map Json.str, none⟩
  if resume_trigger.trigger_type = UiPathResumeTriggerTypeAPI then
    { resume_trigger with
        api_resume := some ⟨resume_trigger.item_key, resume_trigger.payload⟩ }
  else
    resume_trigger

/-- `PickleResumableStorage._load_data`: a missing file loads as the empty
dictionary. -/
def load_data (s : FileState) : PickleDict :=
  match s with
  | none => []
  | some d => d

/-- `PickleResumableStorage.save_trigger`: load, overwrite the
`resume_trigger` key, save. -/
def save_trigger (s : FileState) (t : UiPathResumeTrigger) : FileState :=
  some (setKey (load_data s) "resume_trigger" (.trig (serialize_trigger t)))

/-- `PickleResumableStorage.get_latest_trigger`. -/
def get_latest_trigger (s : FileState) : Option UiPathResumeTrigger :=
  match s with
  | none => none
  | some d =>
    match lookupKey d "resume_trigger" with
    | some (.trig td) => some (deserialize_trigger td)
    | _ => none

/-- `PickleResumableStorage.save_context`: load, overwrite the
`workflow_context` key, save. -/
def save_context (s : FileState) (c : Json) : FileState :=
  some (setKey (load_data s) "workflow_context" (.ctx c))

/-- `PickleResumableStorage.load_context`. -/
def load_context (s : FileState) : Option Json :=
  match s with
  | none => none
  | some d =>
    match lookupKey d "workflow_context" with
    | some (.ctx c) => some c
    | _ => none

/-! ## `uipath_openai_agents/runtime/factory.py`: storage paths

The file system is modelled as the list of existing file paths.
`os.makedirs` only creates directories, which are not part of this model.
-/

/-- The fields of `UiPathRuntimeContext` read by `_get_storage_path` and
`_get_storage_path_legacy`. -/
structure RuntimeContextModel where
  runtime_dir : Option String
  state_file : Option String
  resume : Bool
  job_id : Option String

/-- Existing files on disk. -/
abbrev FileSystem := List String

/-- Python truthiness of an optional string (`None` and `""` are falsy). -/
def optStrTruthy : Option String → Bool
  | none => false
  | some s => s != ""

/-- `os.path.join` for one directory and one file component. -/
def joinPath (d f : String) : String :=
  if f.startsWith "/" then f
  else if d = "" || d.endsWith "/" then d ++ f
  else d ++ "/" ++ f

/-- `os.remove` guarded by `os.path.exists`. -/
def removeIfExists (fs : FileSystem) (p : String) : FileSystem :=
  if fs.contains p then fs.filter (fun q => q != p) else fs

/-- `os.path.splitext(name)[0]`: the name up to its last extension
(leading dots of the name never start an extension). -/
def splitextBase (name : String) : String :=
  let s := name.toList
  let lead := s.takeWhile (fun c => c = '.')
  let rest := s.drop lead.length
  let stem :=
    if rest.contains '.' then
      ((rest.reverse.dropWhile (fun c => c != '.')).drop 1).reverse
    else rest
  String.mk (lead ++ stem)

/-- `UiPathOpenAIAgentRuntimeFactory._get_storage_path`: returns the
computed path (or `None` when no runtime dir / state file is configured)
together with the file system after the conditional delete. -/
def get_storage_path (ctx : RuntimeContextModel) (fs : FileSystem) :
    Option String × FileSystem :=
  if optStrTruthy ctx.runtime_dir && optStrTruthy ctx.state_file then
    let path := joinPath (ctx.runtime_dir.getD "") (ctx.state_file.getD "")
    if ctx.resume = false && ctx.job_id = none then
      (some path, removeIfExists fs path)
    else
      (some path, fs)
  else
    (none, fs)

/-- `UiPathOpenAIAgentRuntimeFactory._get_storage_path_legacy`. -/
def get_storage_path_legacy (ctx : RuntimeContextModel) (runtime_id : String)
    (fs : FileSystem) : Option String × FileSystem :=
  if optStrTruthy ctx.runtime_dir && optStrTruthy ctx.state_file then
    let base_name := splitextBase (ctx.state_file.getD "")
    let file_name := base_name ++ "_" ++ runtime_id ++ ".db"
    let path := joinPath (ctx.runtime_dir.getD "") file_name
    if ctx.resume = false && ctx.job_id = none then
      (some path, removeIfExists fs path)
    else
      (some path, fs)
  else
    (some (joinPath (joinPath "__uipath" "sessions") (runtime_id ++ ".db")), fs)

/-! ## Runtime error wrapping (`runtime.py`, both adapters)

The repository's own exception classes (`errors.py` of each package) are
not under `src/`; only their construction sites are.  They are modelled
from the spec as records carrying a stable code, a short title, a detail
string and a coarse category.
-/

/-- Modelled from the spec: the coarse error category carried by the
repository's runtime exception types (`errors.py` is not under `src/`). -/
inductive ErrorCategory where
  | USER
  | DEPLOYMENT
  | SYSTEM
deriving DecidableEq, Repr

/-- Modelled from the spec: the stable code strings used by the two
`_create_runtime_error` functions (`errors.py` and the `uipath.runtime`
error-code enums are not under `src/`; the exact strings are irrelevant
to the claims, only their identity as codes matters). -/
inductive ErrorCode where
  | INPUT_INVALID_JSON
  | TIMEOUT_ERROR
  | AGENT_EXECUTION_FAILURE
  | EXECUTION_ERROR
deriving DecidableEq, Repr

/-- Modelled from the spec: `UiPathOpenAIAgentsRuntimeError`, the
OpenAI-agents package's own runtime exception type, carrying a code, a
title, a detail and a category. -/
structure UiPathOpenAIAgentsRuntimeError where
  code : ErrorCode
  title : String
  detail : String
  category : ErrorCategory
deriving DecidableEq, Repr

/-- Modelled from the spec: `UiPathLlamaIndexRuntimeError`, the
LlamaIndex package's own runtime exception type. -/
structure UiPathLlamaIndexRuntimeError where
  code : ErrorCode
  title : String
  detail : String
  category : ErrorCategory
deriving DecidableEq, Repr

/-- An exception reaching the OpenAI-agents adapter boundary: either the
repository's own error type, or one of the exception classes that
`_create_runtime_error` distinguishes, or any other exception (carrying
its `str(e)` text). -/
inductive OAIExc where
  | wrapped (err : UiPathOpenAIAgentsRuntimeError)
  | jsonDecodeError (msg : String)
  | timeoutError (msg : String)
  | other (msg : String)
deriving DecidableEq, Repr

/-- Python `str(e)` for the modelled OpenAI-agents exceptions (for the
already-wrapped case the text is never read by `_create_runtime_error`). -/
def OAIExc.strOf : OAIExc → String
  | .wrapped err => err.detail
  | .jsonDecodeError m => m
  | .timeoutError m => m
  | .other m => m

/-- `UiPathOpenAIAgentRuntime._create_runtime_error`. -/
def create_runtime_error_oai (e : OAIExc) : UiPathOpenAIAgentsRuntimeError :=
  match e with
  | .wrapped err => err
  | _ =>
    let detail := "Error: " ++ e.strOf
    match e with
    | .jsonDecodeError _ =>
      ⟨.INPUT_INVALID_JSON, "Invalid JSON input", detail, .USER⟩
    | .timeoutError _ =>
      ⟨.TIMEOUT_ERROR, "Agent execution timed out", detail, .USER⟩
    | _ =>
      ⟨.AGENT_EXECUTION_FAILURE, "Agent execution failed", detail, .USER⟩

/-- An exception reaching the LlamaIndex adapter boundary. -/
inductive LIExc where
  | wrapped (err : UiPathLlamaIndexRuntimeError)
  | workflowTimeoutError (msg : String)
  | jsonDecodeError (msg : String)
  | other (msg : String)
deriving DecidableEq, Repr

/-- Python `str(e)` for the modelled LlamaIndex exceptions. -/
def LIExc.strOf : LIExc → String
  | .wrapped err => err.detail
  | .workflowTimeoutError m => m
  | .jsonDecodeError m => m
  | .other m => m

/-- `UiPathLlamaIndexRuntime._create_runtime_error`. -/
def create_runtime_error_li (e : LIExc) : UiPathLlamaIndexRuntimeError :=
  match e with
  | .wrapped err => err
  | _ =>
    let detail := "Error: " ++ e.strOf
    match e with
    | .workflowTimeoutError _ =>
      ⟨.TIMEOUT_ERROR, "Workflow timed out", detail, .USER⟩
    | .jsonDecodeError _ =>
      ⟨.INPUT_INVALID_JSON, "Invalid JSON input", detail, .USER⟩
    | _ =>
      ⟨.EXECUTION_ERROR, "Workflow execution failed", detail, .USER⟩

/-! ## `UiPathOpenAIAgentRuntime._prepare_agent_input` and the input
validation path of `_run_agent` / `execute` / `stream` -/

/-- The prepared input handed to `Runner.run`: a plain string (from the
`message` field) or a list of message dictionaries (from `messages`). -/
inductive AgentInput where
  | text (s : String)
  | messages (l : List Json)

/-- Python `repr` of a key list, as interpolated by
`f"Got keys: \x7blist(input.keys())\x7d"`. -/
def reprKeys (keys : List String) : String :=
  "[" ++ String.intercalate ", " (keys.map (fun k => "\x27" ++ k ++ "\x27")) ++ "]"

/-- `UiPathOpenAIAgentRuntime._prepare_agent_input`: validates the input
dictionary and raises `ValueError` (the error message string) otherwise. -/
def prepare_agent_input (input : Option (List (String × Json))) :
    Except String AgentInput :=
  match input with
  | none => .error ("Input is required. Provide either \x27message\x27 (string) or \x27messages\x27 (list of message dicts)")
  | some kvs =>
    if kvs.isEmpty then
      .error ("Input is required. Provide either \x27message\x27 (string) or \x27messages\x27 (list of message dicts)")
    else
      match lookupKey kvs "messages" with
      | some v =>
        match v with
        | .arr l => .ok (.messages l)
        | _ => .error ("\x27messages\x27 field must be a list of message dictionaries")
      | none =>
        match lookupKey kvs "message" with
        | some v => .ok (.text (pyStr v))
        | none =>
          .error ("Input must contain either \x27message\x27 (string) or \x27messages\x27 (list of message dicts). Got keys: "
            ++ reprKeys (kvs.map Prod.fst))

/-- The input-validation phase of `_run_agent` as observed through
`execute`/`stream`: `_prepare_agent_input` is called before the agent is
run, its `ValueError` propagates out of the generator and is wrapped by
`_create_runtime_error` at the `execute`/`stream` boundary.  The rest of
the run is abstracted by `agentRun`, a function from the prepared input
to the final result dictionary. -/
def run_agent_boundary (agentRun : AgentInput → Json)
    (input : Option (List (String × Json))) :
    Except UiPathOpenAIAgentsRuntimeError Json :=
  match prepare_agent_input input with
  | .error msg => .error (create_runtime_error_oai (.other msg))
  | .ok ai => .ok (agentRun ai)

/-! ## `uipath_openai_agents/runtime/schema.py`: `_resolve_refs`

Python recursion is modelled with an explicit fuel parameter: the result
`fuelOut` means the modelled recursion ran out of fuel, `raised` means
the Python code raises an exception (a `$ref` value that is not a
string, or a reference path that traverses a non-dictionary), `ok j`
is a normal return.  The mutable `visited` set behaves as the current
resolution path (each call adds the reference before recursing and
discards it afterwards), so it is modelled as a path list threaded
downwards.
-/

/-- Outcome of `_resolve_refs` on a schema value. -/
inductive ROut where
  | fuelOut
  | raised
  | ok (j : Json)

/-- Outcome of resolving every element of a JSON list. -/
inductive RListOut where
  | fuelOut
  | raised
  | ok (l : List Json)

/-- Outcome of resolving every value of a JSON dictionary. -/
inductive RFieldsOut where
  | fuelOut
  | raised
  | ok (l : List (String × Json))

/-- `ref_path.lstrip("#/")`: drop every leading `#` or `/`. -/
def lstripHashSlash (s : String) : String :=
  String.mk (s.toList.dropWhile (fun c => c = '#' || c = '/'))

/-- Python `str.split("/")` on a character list: the empty string splits
to one empty part, and consecutive separators produce empty parts. -/
def splitSlash (l : List Char) : List (List Char) :=
  match l with
  | [] => [[]]
  | c :: rest =>
    let r := splitSlash rest
    if c = '/' then [] :: r
    else
      match r with
      | [] => [[c]]
      | h :: t => (c :: h) :: t

/-- `ref_path.lstrip("#/").split("/")`. -/
def refParts (ref_path : String) : List String :=
  (splitSlash (lstripHashSlash ref_path).toList).map (fun l => String.mk l)

/-- The reference-resolution loop `for part in ref_parts: ref_schema =
ref_schema.get(part, {})`; `none` models the `AttributeError` Python
raises when the walk reaches a non-dictionary. -/
def lookupPath (j : Json) (parts : List String) : Option Json :=
  match parts with
  | [] => some j
  | p :: rest =>
    match j with
    | .obj kvs => lookupPath ((lookupKey kvs p).getD (.obj [])) rest
    | _ => none

/-- The placeholder object substituted for a reference that is already on
the current resolution path. -/
def circularPlaceholder (ref_path : String) : Json :=
  .obj [("type", .str "object"),
        ("description", .str ("Circular reference to " ++ ref_path))]

mutual

/-- `_resolve_refs(schema, root, visited)`.  The fuel parameter is a
modelling artifact bounding the recursion depth (Python has none); it is
consumed at every recursive step, and the termination theorem exhibits a
fuel that is always sufficient. -/
def resolve_refs (fuel : Nat) (root : Json) (visited : List String)
    (schema : Json) : ROut :=
  match fuel with
  | 0 => .fuelOut
  | f + 1 =>
    match schema with
    | .obj kvs =>
      match lookupKey kvs "$ref" with
      | some (.str ref_path) =>
        if ref_path ∈ visited then .ok (circularPlaceholder ref_path)
        else
          match lookupPath root (refParts ref_path) with
          | none => .raised
          | some ref_schema => resolve_refs f root (ref_path :: visited) ref_schema
      | some _ => .raised
      | none =>
        match resolve_refs_fields f root visited kvs with
        | .fuelOut => .fuelOut
        | .raised => .raised
        | .ok l => .ok (.obj l)
    | .arr items =>
      match resolve_refs_list f root visited items with
      | .fuelOut => .fuelOut
      | .raised => .raised
      | .ok l => .ok (.arr l)
    | j => .ok j

/-- Elementwise resolution of a JSON list (`[_resolve_refs(item, ...) for
item in schema]`). -/
def resolve_refs_list (fuel : Nat) (root : Json) (visited : List String)
    (items : List Json) : RListOut :=
  match fuel with
  | 0 => .fuelOut
  | f + 1 =>
    match items with
    | [] => .ok []
    | j :: rest =>
      match resolve_refs f root visited j with
      | .fuelOut => .fuelOut
      | .raised => .raised
      | .ok j2 =>
        match resolve_refs_list f root visited rest with
        | .fuelOut => .fuelOut
        | .raised => .raised
        | .ok l => .ok (j2 :: l)

/-- Valuewise resolution of a JSON dictionary (`\x7bk: _resolve_refs(v,
...) for k, v in schema.items()\x7d`). -/
def resolve_refs_fields (fuel : Nat) (root : Json) (visited : List String)
    (kvs : List (String × Json)) : RFieldsOut :=
  match fuel with
  | 0 => .fuelOut
  | f + 1 =>
    match kvs with
    | [] => .ok []
    | (k, v) :: rest =>
      match resolve_refs f root visited v with
      | .fuelOut => .fuelOut
      | .raised => .raised
      | .ok v2 =>
        match resolve_refs_fields f root visited rest with
        | .fuelOut => .fuelOut
        | .raised => .raised
        | .ok l => .ok ((k, v2) :: l)

end

mutual

/-- Every string appearing as the value of a `$ref` key anywhere in the
document (an over-approximation of the references resolution can
encounter; used only for the termination bound). -/
def refStrings : Json → List String
  | .obj kvs => refStringsFields kvs
  | .arr l => refStringsList l
  | _ => []

def refStringsList : List Json → List String
  | [] => []
  | j :: rest => refStrings j ++ refStringsList rest

def refStringsFields : List (String × Json) → List String
  | [] => []
  | (k, v) :: rest =>
    (if k = "$ref" then
      (match v with
       | .str s => [s]
       | _ => [])
     else []) ++ refStrings v ++ refStringsFields rest

end

mutual

/-- Whether any dictionary in the document still carries a `$ref` key. -/
def hasRefKey : Json → Bool
  | .obj kvs => (lookupKey kvs "$ref").isSome || hasRefKeyFields kvs
  | .arr l => hasRefKeyList l
  | _ => false

def hasRefKeyList : List Json → Bool
  | [] => false
  | j :: rest => hasRefKey j || hasRefKeyList rest

def hasRefKeyFields : List (String × Json) → Bool
  | [] => false
  | (_, v) :: rest => hasRefKey v || hasRefKeyFields rest

end

mutual

/-- A size measure on JSON documents (used only for the fuel bound of
`resolve_refs`; every document and every list has size at least one). -/
def jsonSize : Json → Nat
  | .obj kvs => 1 + jsonSizeFields kvs
  | .arr l => 1 + jsonSizeList l
  | _ => 1

def jsonSizeList : List Json → Nat
  | [] => 1
  | j :: rest => 1 + jsonSize j + jsonSizeList rest

def jsonSizeFields : List (String × Json) → Nat
  | [] => 1
  | (_, v) :: rest => 1 + jsonSize v + jsonSizeFields rest

end

/-- The references of a document, as a finite set. -/
def refSet (j : Json) : Finset String := (refStrings j).toFinset

/-- The references of a list of documents, as a finite set. -/
def refSetList (l : List Json) : Finset String := (refStringsList l).toFinset

/-- The references of a dictionary, as a finite set. -/
def refSetFields (l : List (String × Json)) : Finset String :=
  (refStringsFields l).toFinset

/-- Number of references of `S` not yet on the resolution path. -/
def remRefs (S : Finset String) (visited : List String) : Nat :=
  (S \ visited.toFinset).card

/-! ## `uipath_openai_agents/runtime/schema.py`: schema extraction -/

/-- Sufficient fuel for `resolve_refs` on a document: the size of the
schema plus one full root-size allowance per distinct reference not yet
on the path. -/
def suffFuel (schema root : Json) : Nat :=
  jsonSize schema + remRefs (refSet schema ∪ refSet root) [] * (jsonSize root + 2)

/-- `_resolve_refs(schema)` as called by the schema extractors: root is
the schema itself, the visited set starts empty. -/
def resolve_refs_total (schema : Json) : ROut :=
  resolve_refs (suffFuel schema schema) schema [] schema

/-- One property as rewritten by `_process_nullable_types`: an `anyOf`
union containing `null` becomes a `nullable` type; everything else is
passed through.  (`anyOf` items that are not dictionaries contribute no
type entry.) -/
def process_prop (prop : Json) : Json :=
  match prop with
  | .obj kvs =>
    match lookupKey kvs "anyOf" with
    | some (.arr items) =>
      let types : List Json := items.filterMap (fun item =>
        match item with
        | .obj ikvs => lookupKey ikvs "type"
        | _ => none)
      let hasNull := types.any (fun t =>
        match t with
        | .str s => s = "null"
        | _ => false)
      let non_null := types.filter (fun t =>
        match t with
        | .str s => s ≠ "null"
        | _ => true)
      if hasNull then
        match non_null with
        | [t] => .obj [("type", t), ("nullable", .bool true)]
        | l => .obj [("type", .arr l), ("nullable", .bool true)]
      else prop
    | _ => prop
  | _ => prop

/-- `_process_nullable_types(properties)`. -/
def process_nullable_types (properties : Json) : Json :=
  match properties with
  | .obj kvs => .obj (kvs.map (fun kv => (kv.1, process_prop kv.2)))
  | other => other

/-- A Python type annotation as seen by `_is_pydantic_model` /
`TypeAdapter`: a Pydantic model (carrying the JSON Schema its adapter
produces, `none` when `json_schema()` raises), an `AgentOutputSchema`
wrapper instance (has a `schema` attribute and is not a type), or any
other annotation. -/
inductive TypeModel where
  | pyModel (jsonSchema : Option Json)
  | outputSchemaWrapper (inner : TypeModel)
  | plainType

/-- `_is_pydantic_model`. -/
def is_pydantic_model : TypeModel → Bool
  | .pyModel _ => true
  | _ => false

/-- The block shared by `get_entrypoints_schema` and
`_extract_schema_from_callable` that turns a model's JSON Schema into an
input/output section: resolve references, process nullable property
types, copy `required`, `title` and `description`.  `none` models the
exceptions those statements can raise (caught by both callers). -/
def extract_model_io_schema (js : Json) : Option Json :=
  match resolve_refs_total js with
  | .ok (.obj kvs) =>
    match (lookupKey kvs "properties").getD (.obj []) with
    | .obj pkvs =>
      let processed : Json := .obj (pkvs.map (fun kv => (kv.1, process_prop kv.2)))
      let required := (lookupKey kvs "required").getD (.arr [])
      let base := [("type", Json.str "object"), ("properties", processed),
        ("required", required)]
      let base :=
        match lookupKey kvs "title" with
        | some t => base ++ [("title", t)]
        | none => base
      let base :=
        match lookupKey kvs "description" with
        | some d => base ++ [("description", d)]
        | none => base
      some (.obj base)
    | _ => none
  | _ => none

/-- The loaded object optionally passed for schema inference: not
callable, a callable without usable type hints (or whose hint
resolution raises), or a callable with a first-parameter annotation and
a return annotation. -/
inductive LoadedObject where
  | notCallable
  | noTypeHints
  | typedCallable (inputType : Option TypeModel) (returnType : Option TypeModel)

/-- The empty input/output section both extractors start from. -/
def default_io_schema : Json :=
  .obj [("type", .str "object"), ("properties", .obj []), ("required", .arr [])]

/-- Extraction of one side (input or output) of
`_extract_schema_from_callable`: `some none` keeps the default section,
`some (some s)` replaces it, `none` is a raised exception (the caller
then returns `None`). -/
def extract_callable_side (t : Option TypeModel) : Option (Option Json) :=
  match t with
  | none => some none
  | some tm =>
    if is_pydantic_model tm then
      match tm with
      | .pyModel (some js) =>
        match extract_model_io_schema js with
        | some s => some (some s)
        | none => none
      | .pyModel none => none
      | _ => some none
    else some none

/-- The `properties` entry of an input/output section. -/
def propsOf (s : Json) : Json :=
  match s with
  | .obj kvs => (lookupKey kvs "properties").getD .null
  | _ => .null

/-- `_extract_schema_from_callable(callable_obj)`. -/
def extract_schema_from_callable (lo : LoadedObject) : Option Json :=
  match lo with
  | .notCallable => none
  | .noTypeHints => none
  | .typedCallable inputT returnT =>
    match extract_callable_side inputT with
    | none => none
    | some inOpt =>
      match extract_callable_side returnT with
      | none => none
      | some outOpt =>
        let inSchema := inOpt.getD default_io_schema
        let outSchema := outOpt.getD default_io_schema
        if jsonTruthy (propsOf inSchema) || jsonTruthy (propsOf outSchema) then
          some (.obj [("input", inSchema), ("output", outSchema)])
        else none

/-- The agent attributes read by `get_entrypoints_schema`. -/
structure AgentModel where
  output_type : Option TypeModel

/-- The fixed input schema (`message` as string or message list) that
`get_entrypoints_schema` always produces. -/
def message_input_schema : Json :=
  .obj [("type", .str "object"),
        ("properties", .obj [("message", .obj
          [("anyOf", .arr [.obj [("type", .str "string")],
            .obj [("type", .str "array"), ("items", .obj [("type", .str "object")])]]),
           ("title", .str "Message"),
           ("description", .str "User message(s) to send to the agent")])]),
        ("required", .arr [.str "message"])]

/-- The generic fallback output schema for agents without an explicit
output type. -/
def fallback_output_schema : Json :=
  .obj [("type", .str "object"),
        ("properties", .obj [("result", .obj
          [("title", .str "Result"),
           ("description", .str "The agent\x27s response"),
           ("anyOf", .arr [.obj [("type", .str "string")],
             .obj [("type", .str "object")],
             .obj [("type", .str "array"), ("items", .obj [("type", .str "object")])]])])]),
        ("required", .arr [.str "result"])]

/-- The `output` entry of a wrapper schema. -/
def wrapperOutputOf (ws : Json) : Option Json :=
  match ws with
  | .obj kvs => lookupKey kvs "output"
  | _ => none

/-- `get_entrypoints_schema(agent, loaded_object)`.  The agent is passed
through unchanged in the second component: the source only reads agent
attributes (`getattr`), it never assigns any. -/
def get_entrypoints_schema (agent : AgentModel)
    (loaded_object : Option LoadedObject) : Json × AgentModel :=
  let output_type :=
    match agent.output_type with
    | some (.outputSchemaWrapper inner) => some inner
    | ot => ot
  let fromAgent : Option Json :=
    match output_type with
    | some tm =>
      if is_pydantic_model tm then
        match tm with
        | .pyModel (some js) => extract_model_io_schema js
        | _ => none
      else none
    | none => none
  let fromWrapper : Option Json :=
    match fromAgent with
    | some _ => none
    | none =>
      match loaded_object with
      | some lo => (extract_schema_from_callable lo).bind wrapperOutputOf
      | none => none
  let output := ((fromAgent).orElse (fun _ => fromWrapper)).getD fallback_output_schema
  (.obj [("input", message_input_schema), ("output", output)], agent)

/-! ## `uipath_openai_agents/runtime/runtime.py`: breakpoints and the
streamed run (`_should_pause_at_event`, `_run_agent_streamed`) -/

/-- An agent reference as read through `getattr(..., "name", None)`. -/
structure AgentRefModel where
  name : Option String

/-- The `item` of a run-item stream event, as read through `getattr`. -/
structure RunItemModel where
  name : Option String
  target_agent : Option AgentRefModel

/-- The OpenAI Agents SDK streaming event union, as read through
`getattr(event, "type"/"name"/"item"/"new_agent", ...)`. -/
inductive SDKEvent where
  | runItem (name : String) (item : Option RunItemModel)
  | agentUpdated (new_agent : Option AgentRefModel)
  | rawResponse

/-- `getattr(event, "type", None)`. -/
def SDKEvent.typeOf : SDKEvent → Option String
  | .runItem _ _ => some "run_item_stream_event"
  | .agentUpdated _ => some "agent_updated_stream_event"
  | .rawResponse => some "raw_response_event"

/-- `getattr(event, "name", None)`. -/
def SDKEvent.nameOf : SDKEvent → Option String
  | .runItem n _ => some n
  | _ => none

/-- `getattr(event, "item", None)`. -/
def SDKEvent.itemOf : SDKEvent → Option RunItemModel
  | .runItem _ it => it
  | _ => none

/-- The `breakpoints` value carried by the options: `None` (absent),
`"*"`, or a list of names. -/
inductive BreakpointsConfig where
  | noBreakpoints
  | star
  | names (l : List String)

/-- `UiPathOpenAIAgentRuntime._should_pause_at_event`. -/
def should_pause_at_event (e : SDKEvent) (bps : BreakpointsConfig) : Bool :=
  match bps with
  | .noBreakpoints => false
  | .star =>
    if e.typeOf = some "run_item_stream_event" then
      decide (e.nameOf = some "tool_called") ||
      decide (e.nameOf = some "handoff_requested") ||
      decide (e.nameOf = some "mcp_approval_requested")
    else false
  | .names l =>
    if l.isEmpty then false
    else l.any (fun bp =>
      ((decide (e.nameOf = some "tool_called") &&
        decide (e.typeOf = some "run_item_stream_event")) &&
        (match e.itemOf with
         | some it =>
           match it.name with
           | some tn => tn != "" && tn == bp
           | none => false
         | none => false)) ||
      ((decide (e.nameOf = some "handoff_requested") &&
        decide (e.typeOf = some "run_item_stream_event")) &&
        (match e.itemOf with
         | some it =>
           match it.target_agent with
           | some ta =>
             match ta.name with
             | some an => an != "" && an == bp
             | none => false
           | none => false
         | none => false)))

/-- A UiPath runtime event produced by
`_convert_stream_event_to_runtime_event`. -/
inductive RuntimeEvent where
  | message (event_name : String) (item : RunItemModel)
  | state (event_name : String) (item : RunItemModel)
  | agentState (agent_name : String)

/-- `UiPathOpenAIAgentRuntime._convert_stream_event_to_runtime_event`. -/
def convert_stream_event (e : SDKEvent) : Option RuntimeEvent :=
  match e with
  | .runItem n (some it) =>
    if n = "message_output_created" || n = "reasoning_item_created" then
      some (.message n it)
    else
      some (.state n it)
  | .runItem _ none => none
  | .agentUpdated (some ag) => some (.agentState (ag.name.getD "unknown"))
  | .agentUpdated none => none
  | .rawResponse => none

/-- One observable step of the streamed run: a yielded breakpoint result,
clearing / awaiting the resume primitive, a yielded runtime event, or
the final result. -/
inductive TraceStep where
  | yieldBreakpoint (node : String)
  | clearResume
  | awaitResume
  | yieldEvent (ev : RuntimeEvent)
  | yieldFinalResult

/-- The `breakpoint_node` recorded by
`_create_breakpoint_result_from_event` (`getattr(event, "name",
"unknown")`). -/
def breakpoint_node_of (e : SDKEvent) : String :=
  (e.nameOf).getD "unknown"

/-- `UiPathOpenAIAgentRuntime._run_agent_streamed` as the sequence of its
observable steps over a given stream of SDK events: for every event it
first checks `_should_pause_at_event`; on a pause it yields the
breakpoint result and, when a `resume_event` primitive was supplied,
clears it and awaits it; then, when streaming is enabled, it yields the
converted runtime event; after the stream it yields the final result. -/
def run_agent_streamed (events : List SDKEvent) (bps : BreakpointsConfig)
    (hasResumeEvent : Bool) (stream_events : Bool) : List TraceStep :=
  (events.flatMap (fun e =>
    (if should_pause_at_event e bps then
      .yieldBreakpoint (breakpoint_node_of e) ::
        (if hasResumeEvent then [.clearResume, .awaitResume] else [])
     else []) ++
    (if stream_events then
      ((convert_stream_event e).map TraceStep.yieldEvent).toList
     else [])))
  ++ [.yieldFinalResult]

/-- The pause condition in the words of the claim: a `tool_called` event
whose tool name is one of the configured names, or a
`handoff_requested` event whose target agent name is one of the
configured names. -/
def claim_matches (bps : List String) (e : SDKEvent) : Bool :=
  match e with
  | .runItem "tool_called" (some it) =>
    match it.name with
    | some tn => bps.contains tn
    | none => false
  | .runItem "handoff_requested" (some it) =>
    match it.target_agent with
    | some ta =>
      match ta.name with
      | some an => bps.contains an
      | none => false
    | none => false
  | _ => false

/-- The behaviour the claim describes: pause exactly at matching events,
with clear-then-await when a resume primitive is supplied and nothing
otherwise, streaming converted events in between, then the final
result. -/
def claim_pause_trace (events : List SDKEvent) (bps : List String)
    (hasResumeEvent : Bool) (stream_events : Bool) : List TraceStep :=
  (events.flatMap (fun e =>
    (if claim_matches bps e then
      .yieldBreakpoint (breakpoint_node_of e) ::
        (if hasResumeEvent then [.clearResume, .awaitResume] else [])
     else []) ++
    (if stream_events then
      ((convert_stream_event e).map TraceStep.yieldEvent).toList
     else [])))
  ++ [.yieldFinalResult]

/-! ## `uipath_llamaindex/runtime/runtime.py`: `_run_workflow` -/

/-- The workflow context object: freshly constructed
(`Context(self.workflow)`) or deserialized from a stored dictionary
(`Context.from_dict(self.workflow, d, serializer)`). -/
inductive ContextModel where
  | fresh
  | fromDict (d : Json)

/-- A LlamaIndex workflow stream event as the adapter distinguishes
them: an `InputRequiredEvent` (with its `prefix` datum), one of the
agent-stream event classes, or any other event. -/
inductive WfEvent where
  | inputRequired (pfx : Option String)
  | agentStreamEvent (tag : Nat)
  | otherEvent (tag : Nat)

/-- `isinstance(event, InputRequiredEvent)`. -/
def isInputRequired : WfEvent → Bool
  | .inputRequired _ => true
  | _ => false

/-- Modelled from the spec: `uipath.runtime`'s `UiPathRuntimeStatus`
values used by the adapter (the enum is an external dependency, not
under `src/`). -/
inductive RuntimeStatus where
  | SUCCESSFUL
  | SUSPENDED
deriving DecidableEq, Repr

/-- How `self.workflow.run` was invoked: with which start event and
which context object. -/
structure RunInvocation where
  start_event : Option Json
  ctx : ContextModel

/-- The observable outcome of one `_run_workflow` call. -/
structure WorkflowRunOutcome where
  invocation : RunInvocation
  sent_events : List Json
  processed : List WfEvent
  saved_context : Option Json
  cancelled : Bool
  status : RuntimeStatus

/-- The event loop of `_run_workflow`: consume events, skipping the
first `InputRequiredEvent` when resuming, and break at the
`InputRequiredEvent` that suspends the run.  Returns the consumed
events and the suspending event, if any. -/
def scan_for_suspend (is_resuming : Bool) (events : List WfEvent)
    (is_resumed : Bool) : List WfEvent × Option WfEvent :=
  match events with
  | [] => ([], none)
  | e :: rest =>
    if isInputRequired e then
      if !is_resumed && is_resuming then
        let (p, s) := scan_for_suspend is_resuming rest true
        (e :: p, s)
      else ([e], some e)
    else
      let (p, s) := scan_for_suspend is_resuming rest is_resumed
      (e :: p, s)

/-- `UiPathLlamaIndexRuntime._load_context`: a missing storage, a missing
stored dictionary, or a falsy stored dictionary give a fresh context;
otherwise the context is deserialized from the stored dictionary. -/
def load_context_model (storage : Option (Option Json)) : ContextModel :=
  match storage with
  | none => .fresh
  | some none => .fresh
  | some (some d) => if jsonTruthy d then .fromDict d else .fresh

/-- `workflow_input = input or \x7b\x7d`. -/
def workflow_input_of (input : Option Json) : Json :=
  match input with
  | some j => if jsonTruthy j then j else .obj []
  | none => .obj []

/-- `UiPathLlamaIndexRuntime._run_workflow`, parameterized by the
engine's context serializer `ctxToDict` (`Context.to_dict`), the storage
contents (`none` = no storage configured; `some c` = storage configured
with optional stored context dictionary `c`), the runtime's cached
context (`self._context`), and the stream of events the workflow handler
produces. -/
def run_workflow (ctxToDict : ContextModel → Json) (input : Option Json)
    (resume : Bool) (storage : Option (Option Json))
    (existing : Option ContextModel) (events : List WfEvent) :
    WorkflowRunOutcome :=
  let workflow_input : Json := workflow_input_of input
  let ctx : ContextModel :=
    match existing with
    | some c => c
    | none => if resume then load_context_model storage else .fresh
  let invocation : RunInvocation :=
    if resume then ⟨none, ctx⟩
    else ⟨if jsonTruthy workflow_input then some workflow_input else none, ctx⟩
  let sent : List Json := if resume then [workflow_input] else []
  let (processed, suspended) := scan_for_suspend resume events false
  match suspended with
  | some _ =>
    { invocation := invocation
      sent_events := sent
      processed := processed
      saved_context := match storage with
        | none => none
        | some _ => some (ctxToDict ctx)
      cancelled := true
      status := .SUSPENDED }
  | none =>
    { invocation := invocation
      sent_events := sent
      processed := processed
      saved_context := none
      cancelled := false
      status := .SUCCESSFUL }

/-- Extracts the `result` property of the `output` section of an
entrypoints schema (present on the generic fallback output schema,
absent on a wrapper-derived one). -/
def output_result_prop (j : Json) : Option Json :=
  match j with
  | .obj kvs =>
    match lookupKey kvs "output" with
    | some (.obj okvs) =>
      match lookupKey okvs "properties" with
      | some (.obj pkvs) => lookupKey pkvs "result"
      | _ => none
    | _ => none
  | _ => none

/-- The JSON Schema the `TypeAdapter` of a wrapper function's return
annotation produces, in the C4 counterexample. -/
def callable_output_schema_cex : Json :=
  .obj [("properties", .obj [("answer", .obj [("type", .str "string")])]),
        ("required", .arr [.str "answer"]),
        ("title", .str "Out")]

/-- A loaded object whose return annotation is a Pydantic model, for the
C4 counterexample. -/
def loaded_object_cex : LoadedObject :=
  .typedCallable none (some (.pyModel (some callable_output_schema_cex)))

/-! ## Lemmas about association-list dictionaries -/

theorem lookupKey_setKey_same {α : Type} (l : List (String × α)) (k : String)
    (v : α) : lookupKey (setKey l k v) k = some v := by
  induction l with
  | nil => simp [setKey, lookupKey]
  | cons kv rest ih =>
    obtain ⟨k2, w⟩ := kv
    by_cases h : k2 = k <;> simp [setKey, lookupKey, h, ih]

theorem lookupKey_setKey_ne {α : Type} (l : List (String × α)) (k k2 : String)
    (v : α) (h : k2 ≠ k) : lookupKey (setKey l k v) k2 = lookupKey l k2 := by
  induction l with
  | nil => simp [setKey, lookupKey, Ne.symm h]
  | cons kv rest ih =>
    obtain ⟨k3, w⟩ := kv
    by_cases h3 : k3 = k
    · subst h3
      simp [setKey, lookupKey, Ne.symm h]
    · simp [setKey, lookupKey, h3, ih]

theorem lookupKey_eq_none_iff {α : Type} (l : List (String × α)) (k : String) :
    lookupKey l k = none ↔ k ∉ l.map Prod.fst := by
  induction l with
  | nil => simp [lookupKey]
  | cons kv rest ih =>
    obtain ⟨k2, v⟩ := kv
    by_cases h : k2 = k
    · subst h
      simp [lookupKey]
    · simp [lookupKey, h, ih, Ne.symm h]

/-! ## Claim C8 -/

/-- C8: round-trip of persisted execution state: for every serializable
context dictionary, `save_context` followed by `load_context` on the
same storage returns exactly the saved dictionary. -/
theorem c8_save_context_roundtrip :
    ∀ (s : FileState) (d : Json), load_context (save_context s d) = some d := by
  intro s d
  simp [load_context, save_context, lookupKey_setKey_same]

/-! ## Claim C7 -/

theorem load_data_save_trigger (s : FileState) (t : UiPathResumeTrigger) :
    load_data (save_trigger s t) =
      setKey (load_data s) "resume_trigger" (.trig (serialize_trigger t)) := by
  simp [save_trigger, load_data]

/-- C7: resume triggers are fully replaced on each save: after any
non-empty sequence of `save_trigger` calls, `get_latest_trigger` returns
the deserialization of exactly the most recently saved trigger, and the
whole sequence leaves every other stored key (in particular the saved
`workflow_context`) unchanged. -/
theorem c7_trigger_replaced_not_merged :
    ∀ (ts : List UiPathResumeTrigger) (s : FileState) (h : ts ≠ []),
    get_latest_trigger (ts.foldl save_trigger s) =
      some (deserialize_trigger (serialize_trigger (ts.getLast h))) ∧
    ∀ k, k ≠ "resume_trigger" →
      lookupKey (load_data (ts.foldl save_trigger s)) k =
        lookupKey (load_data s) k := by
  intro ts
  induction ts with
  | nil => intro s h; exact absurd rfl h
  | cons t rest ih =>
    intro s _
    match rest, ih with
    | [], _ =>
      constructor
      · simp [save_trigger, get_latest_trigger, lookupKey_setKey_same]
      · intro k hk
        simp [load_data_save_trigger, lookupKey_setKey_ne _ _ _ _ hk]
    | r :: rest2, ih =>
      have h2 : (r :: rest2 : List UiPathResumeTrigger) ≠ [] := by simp
      constructor
      · have := (ih (save_trigger s t) h2).1
        simpa [List.foldl_cons, List.getLast_cons] using this
      · intro k hk
        have h5 := (ih (save_trigger s t) h2).2 k hk
        have h6 : lookupKey (load_data (save_trigger s t)) k =
            lookupKey (load_data s) k := by
          rw [load_data_save_trigger, lookupKey_setKey_ne _ _ _ _ hk]
        exact h5.trans h6

/-- Witness for C7 at a concrete storage state and a single saved
trigger: the stored `workflow_context` key is untouched and the latest
trigger is the deserialization of the one just saved. -/
theorem c7_trigger_replaced_not_merged_witness :
    get_latest_trigger
        ([(⟨"api", "resume", some "inbox-1", none, none, none, none⟩ :
           UiPathResumeTrigger)].foldl save_trigger
          (some [("workflow_context", .ctx (.str "ctx"))])) =
      some (deserialize_trigger (serialize_trigger
        ⟨"api", "resume", some "inbox-1", none, none, none, none⟩)) ∧
    lookupKey (load_data
        ([(⟨"api", "resume", some "inbox-1", none, none, none, none⟩ :
           UiPathResumeTrigger)].foldl save_trigger
          (some [("workflow_context", .ctx (.str "ctx"))])))
        "workflow_context" =
      lookupKey (load_data
        (some [("workflow_context", PickleVal.ctx (.str "ctx"))]))
        "workflow_context" := by
  have h := c7_trigger_replaced_not_merged
    [⟨"api", "resume", some "inbox-1", none, none, none, none⟩]
    (some [("workflow_context", .ctx (.str "ctx"))]) (by simp)
  exact ⟨h.1, h.2 "workflow_context" (by decide)⟩

/-! ## Claim C9 -/

theorem not_mem_filter_ne (fs : List String) (p : String) :
    p ∉ fs.filter (fun q => q != p) := by
  intro h
  have h2 := (List.mem_filter.mp h).2
  simp at h2

theorem not_mem_removeIfExists (fs : FileSystem) (p : String) :
    p ∉ removeIfExists fs p := by
  unfold removeIfExists
  by_cases h : fs.contains p = true
  · rw [if_pos h]
    exact not_mem_filter_ne fs p
  · rw [if_neg h]
    simpa using h

/-- C9, counterexample: a non-resuming run (`resume = false`) whose
context carries a job id does **not** delete the existing file at the
computed storage path, contrary to the claim that every non-resuming
fresh run deletes it. -/
theorem c9_delete_counterexample :
    (⟨some "runtime", some "state.db", false, some "job-1"⟩ :
      RuntimeContextModel).resume = false ∧
    (get_storage_path ⟨some "runtime", some "state.db", false, some "job-1"⟩
        ["runtime/state.db"]).2 = ["runtime/state.db"] := by
  exact ⟨rfl, rfl⟩

/-- C9, amended: with a configured runtime directory and state file, a
run with `resume` false **and no job id** deletes the existing file at
the computed storage path before returning it, while a resuming run
leaves the file system untouched; the same holds for the legacy
per-runtime path. -/
theorem c9_storage_path_delete :
    ∀ (ctx : RuntimeContextModel) (fs : FileSystem) (d f : String),
    ctx.runtime_dir = some d → ctx.state_file = some f → d ≠ "" → f ≠ "" →
    ((ctx.resume = false ∧ ctx.job_id = none →
        (get_storage_path ctx fs).1 = some (joinPath d f) ∧
        ((get_storage_path ctx fs).2.contains (joinPath d f)) = false) ∧
      (ctx.resume = true →
        get_storage_path ctx fs = (some (joinPath d f), fs))) ∧
    (∀ rid : String,
      (ctx.resume = false ∧ ctx.job_id = none →
        (get_storage_path_legacy ctx rid fs).1 =
          some (joinPath d (splitextBase f ++ "_" ++ rid ++ ".db")) ∧
        ((get_storage_path_legacy ctx rid fs).2.contains
          (joinPath d (splitextBase f ++ "_" ++ rid ++ ".db"))) = false) ∧
      (ctx.resume = true →
        get_storage_path_legacy ctx rid fs =
          (some (joinPath d (splitextBase f ++ "_" ++ rid ++ ".db")), fs))) := by
  intro ctx fs d f hd hf hd2 hf2
  obtain ⟨rd, sf, rs, jid⟩ := ctx
  simp only [RuntimeContextModel.resume, RuntimeContextModel.job_id] at *
  subst hd; subst hf
  refine ⟨⟨?_, ?_⟩, fun rid => ⟨?_, ?_⟩⟩
  · rintro ⟨h1, h2⟩
    subst h1; subst h2
    simp [get_storage_path, optStrTruthy, hd2, hf2, not_mem_removeIfExists]
  · intro h1
    subst h1
    simp [get_storage_path, optStrTruthy, hd2, hf2]
  · rintro ⟨h1, h2⟩
    subst h1; subst h2
    simp [get_storage_path_legacy, optStrTruthy, hd2, hf2, not_mem_removeIfExists]
  · intro h1
    subst h1
    simp [get_storage_path_legacy, optStrTruthy, hd2, hf2]

/-- Witness for C9 (amended) at a concrete context, file and file
system: the pre-existing file is gone from the returned file system. -/
theorem c9_storage_path_delete_witness :
    (get_storage_path ⟨some "runtime", some "state.db", false, none⟩
        ["runtime/state.db"]).1 = some (joinPath "runtime" "state.db") ∧
    ((get_storage_path ⟨some "runtime", some "state.db", false, none⟩
        ["runtime/state.db"]).2.contains (joinPath "runtime" "state.db")) = false := by
  have h := c9_storage_path_delete ⟨some "runtime", some "state.db", false, none⟩
    ["runtime/state.db"] "runtime" "state.db" rfl rfl (by decide) (by decide)
  exact h.1.1 ⟨rfl, rfl⟩

/-! ## Claim C3 -/

/-- C3: every exception raised inside `execute`/`stream` of either
adapter propagates as the repository's own runtime error type: an
already-wrapped error passes through as the very same value, and any
other exception is rewrapped with a detail string embedding `str(e)`
(and a code, title and USER category, which the error record carries by
construction). -/
theorem c3_error_wrapping :
    ∀ (e : OAIExc) (f : LIExc),
    ((∀ w, e = OAIExc.wrapped w → create_runtime_error_oai e = w) ∧
      ((∀ w, e ≠ OAIExc.wrapped w) →
        ∃ pre post, (create_runtime_error_oai e).detail = pre ++ e.strOf ++ post ∧
          (create_runtime_error_oai e).category = .USER)) ∧
    ((∀ w, f = LIExc.wrapped w → create_runtime_error_li f = w) ∧
      ((∀ w, f ≠ LIExc.wrapped w) →
        ∃ pre post, (create_runtime_error_li f).detail = pre ++ f.strOf ++ post ∧
          (create_runtime_error_li f).category = .USER)) := by
  intro e f
  constructor
  · constructor
    · intro w hw
      subst hw
      rfl
    · intro hw
      cases e with
      | wrapped w => exact absurd rfl (hw w)
      | jsonDecodeError m => exact ⟨"Error: ", "", by simp [create_runtime_error_oai, OAIExc.strOf], rfl⟩
      | timeoutError m => exact ⟨"Error: ", "", by simp [create_runtime_error_oai, OAIExc.strOf], rfl⟩
      | other m => exact ⟨"Error: ", "", by simp [create_runtime_error_oai, OAIExc.strOf], rfl⟩
  · constructor
    · intro w hw
      subst hw
      rfl
    · intro hw
      cases f with
      | wrapped w => exact absurd rfl (hw w)
      | workflowTimeoutError m => exact ⟨"Error: ", "", by simp [create_runtime_error_li, LIExc.strOf], rfl⟩
      | jsonDecodeError m => exact ⟨"Error: ", "", by simp [create_runtime_error_li, LIExc.strOf], rfl⟩
      | other m => exact ⟨"Error: ", "", by simp [create_runtime_error_li, LIExc.strOf], rfl⟩

/-- Witness for C3 at concrete exceptions: a plain exception is wrapped
with its text embedded in the detail, and an already-wrapped error
passes through unchanged. -/
theorem c3_error_wrapping_witness :
    (∃ pre post,
      (create_runtime_error_oai (.other "boom")).detail = pre ++ (OAIExc.other "boom").strOf ++ post ∧
      (create_runtime_error_oai (.other "boom")).category = .USER) ∧
    create_runtime_error_li (.wrapped ⟨.EXECUTION_ERROR, "t", "d", .SYSTEM⟩) =
      ⟨.EXECUTION_ERROR, "t", "d", .SYSTEM⟩ := by
  have h := c3_error_wrapping (.other "boom")
    (.wrapped ⟨.EXECUTION_ERROR, "t", "d", .SYSTEM⟩)
  exact ⟨h.1.2 (by intro w hw; cases hw), h.2.1 _ rfl⟩

/-! ## Claim C10 -/

/-- C10: every `None`, empty, or key-invalid input (no `message` /
`messages` key, or a non-list `messages` value) makes the run fail with
a wrapped runtime error of category USER before the agent function is
ever consulted (the outcome is the same for every agent function), and
when both keys are absent on a non-empty dictionary the error detail
lists the provided keys. -/
theorem c10_input_validation :
    ∀ (f g : AgentInput → Json) (input : Option (List (String × Json))),
    (input = none ∨ input = some [] ∨
      (∃ kvs, input = some kvs ∧ lookupKey kvs "message" = none ∧
        lookupKey kvs "messages" = none) ∨
      (∃ kvs v, input = some kvs ∧ lookupKey kvs "messages" = some v ∧
        ∀ l, v ≠ .arr l)) →
    run_agent_boundary f input = run_agent_boundary g input ∧
    ∃ err, run_agent_boundary f input = .error err ∧ err.category = .USER ∧
      (∀ kvs, input = some kvs → kvs ≠ [] → lookupKey kvs "message" = none →
        lookupKey kvs "messages" = none →
        err.detail = "Error: Input must contain either \x27message\x27 (string) or \x27messages\x27 (list of message dicts). Got keys: "
          ++ reprKeys (kvs.map Prod.fst)) := by
  intro f g input h
  have hprep : ∃ msg, prepare_agent_input input = .error msg := by
    rcases h with h | h | ⟨kvs, hkvs, hm, hms⟩ | ⟨kvs, v, hkvs, hms, hv⟩
    · subst h
      exact ⟨_, rfl⟩
    · subst h
      exact ⟨_, rfl⟩
    · subst hkvs
      by_cases he : kvs.isEmpty
      · refine ⟨"Input is required. Provide either \x27message\x27 (string) or \x27messages\x27 (list of message dicts)", ?_⟩
        simp [prepare_agent_input, he]
      · refine ⟨"Input must contain either \x27message\x27 (string) or \x27messages\x27 (list of message dicts). Got keys: "
          ++ reprKeys (kvs.map Prod.fst), ?_⟩
        simp [prepare_agent_input, he, hms, hm]
    · subst hkvs
      by_cases he : kvs.isEmpty
      · refine ⟨"Input is required. Provide either \x27message\x27 (string) or \x27messages\x27 (list of message dicts)", ?_⟩
        simp [prepare_agent_input, he]
      · refine ⟨"\x27messages\x27 field must be a list of message dictionaries", ?_⟩
        cases v with
        | arr l => exact absurd rfl (hv l)
        | null => simp [prepare_agent_input, he, hms]
        | bool b => simp [prepare_agent_input, he, hms]
        | num n => simp [prepare_agent_input, he, hms]
        | str s => simp [prepare_agent_input, he, hms]
        | obj kvs2 => simp [prepare_agent_input, he, hms]
  obtain ⟨msg, hmsg⟩ := hprep
  refine ⟨by simp [run_agent_boundary, hmsg], ?_⟩
  refine ⟨create_runtime_error_oai (.other msg), by simp [run_agent_boundary, hmsg], rfl, ?_⟩
  intro kvs hkvs hne hm hms
  subst hkvs
  have he : kvs.isEmpty = false := by
    cases kvs with
    | nil => exact absurd rfl hne
    | cons a l => rfl
  simp only [prepare_agent_input, he, Bool.false_eq_true, if_false, hms, hm] at hmsg
  have hmsg2 := Except.error.inj hmsg
  subst hmsg2
  simp [create_runtime_error_oai, OAIExc.strOf, ← String.append_assoc]

/-- Witness for C10 at a concrete agent-less input: two different agent
functions give the same USER-category error, whose detail lists the one
provided key. -/
theorem c10_input_validation_witness :
    run_agent_boundary (fun _ => Json.null) (some [("foo", .str "bar")]) =
      run_agent_boundary (fun _ => Json.bool true) (some [("foo", .str "bar")]) ∧
    ∃ err,
      run_agent_boundary (fun _ => Json.null) (some [("foo", .str "bar")]) = .error err ∧
      err.category = .USER ∧
      err.detail = "Error: Input must contain either \x27message\x27 (string) or \x27messages\x27 (list of message dicts). Got keys: "
        ++ reprKeys ["foo"] := by
  have h := c10_input_validation (fun _ => Json.null) (fun _ => Json.bool true)
    (some [("foo", .str "bar")])
    (Or.inr (Or.inr (Or.inl ⟨[("foo", .str "bar")], rfl, rfl, rfl⟩)))
  obtain ⟨heq, err, herr, hcat, hdet⟩ := h
  exact ⟨heq, err, herr, hcat, by
    simpa using hdet [("foo", .str "bar")] rfl (by simp) rfl rfl⟩

/-! ## Claim C4 -/

/-- C4, counterexample: an agent with no `output_type` whose loaded
object is a callable with a Pydantic return annotation gets the
wrapper's output schema, not the generic `result` fallback, so the
claimed unconditional fallback is false. -/
theorem c4_fallback_counterexample :
    (AgentModel.mk none).output_type = none ∧
    (get_entrypoints_schema ⟨none⟩ (some loaded_object_cex)).1 ≠
      .obj [("input", message_input_schema), ("output", fallback_output_schema)] := by
  refine ⟨rfl, fun h => ?_⟩
  have h2 := congrArg output_result_prop h
  rw [show output_result_prop
      (get_entrypoints_schema ⟨none⟩ (some loaded_object_cex)).1 = none from rfl] at h2
  rw [show output_result_prop
      (.obj [("input", message_input_schema), ("output", fallback_output_schema)]) =
      some (.obj [("title", .str "Result"),
        ("description", .str "The agent\x27s response"),
        ("anyOf", .arr [.obj [("type", .str "string")],
          .obj [("type", .str "object")],
          .obj [("type", .str "array"), ("items", .obj [("type", .str "object")])]])])
      from rfl] at h2
  cases h2

/-- C4, amended: an agent with no declared `output_type` gets the
generic fallback output schema whenever no wrapper schema is extracted
from the loaded object (in particular when no loaded object is
supplied). -/
theorem c4_fallback_schema :
    ∀ (a : AgentModel) (lo : Option LoadedObject),
    a.output_type = none →
    (lo = none ∨ ∀ l, lo = some l → extract_schema_from_callable l = none) →
    (get_entrypoints_schema a lo).1 =
      .obj [("input", message_input_schema), ("output", fallback_output_schema)] := by
  intro a lo ha hlo
  obtain ⟨ot⟩ := a
  simp only at ha
  subst ha
  rcases hlo with h | h
  · subst h
    rfl
  · cases lo with
    | none => rfl
    | some l =>
      simp [get_entrypoints_schema, h l rfl]

/-- Witness for C4 (amended) at a concrete agent without output type and
no loaded object. -/
theorem c4_fallback_schema_witness :
    (get_entrypoints_schema ⟨none⟩ none).1 =
      .obj [("input", message_input_schema), ("output", fallback_output_schema)] :=
  c4_fallback_schema ⟨none⟩ none rfl (Or.inl rfl)

/-! ## Claim C5 -/

/-- C5: schema extraction is idempotent and deterministic: it never
modifies the agent (the source only reads attributes), and calling it
again on the agent it returns, with the same loaded object, produces the
same JSON Schema dictionary. -/
theorem c5_schema_extraction_idempotent :
    ∀ (a : AgentModel) (lo : Option LoadedObject),
    (get_entrypoints_schema a lo).2 = a ∧
    (get_entrypoints_schema ((get_entrypoints_schema a lo).2) lo).1 =
      (get_entrypoints_schema a lo).1 :=
  fun _ _ => ⟨rfl, rfl⟩

/-! ## Claim C1 -/

theorem any_beq_eq_contains (l : List String) (tn : String) :
    (l.any fun bp => tn == bp) = l.contains tn := by
  induction l with
  | nil => rfl
  | cons b rest ih =>
    rw [List.any_cons, ih]
    rfl

theorem contains_eq_false_of_all_ne (l : List String) (tn : String)
    (h : tn ∉ l) : l.contains tn = false := by
  simpa using h

theorem any_decide_eq_contains (l : List String) (tn : String) :
    (l.any fun bp => decide (tn = bp)) = decide (tn ∈ l) := by
  induction l with
  | nil => simp
  | cons b rest ih =>
    rw [List.any_cons, ih]
    simp [List.mem_cons]

/-- With a list of non-empty breakpoint names, the source's pause test
coincides with the claim's pause condition. -/
theorem should_pause_names_eq_claim_matches (e : SDKEvent) (bps : List String)
    (h : ∀ b ∈ bps, b ≠ "") :
    should_pause_at_event e (.names bps) = claim_matches bps e := by
  have hcontains : ∀ tn : String, tn = "" → decide (tn ∈ bps) = false := by
    intro tn htn
    subst htn
    simpa using fun hmem => h "" hmem rfl
  cases e with
  | rawResponse => simp [should_pause_at_event, claim_matches, SDKEvent.nameOf, SDKEvent.typeOf, SDKEvent.itemOf]
  | agentUpdated ag => simp [should_pause_at_event, claim_matches, SDKEvent.nameOf, SDKEvent.typeOf, SDKEvent.itemOf]
  | runItem n it =>
    by_cases hn : n = "tool_called"
    · subst hn
      cases it with
      | none =>
        cases bps with
        | nil => simp [should_pause_at_event, claim_matches, SDKEvent.nameOf, SDKEvent.typeOf, SDKEvent.itemOf]
        | cons b rest => simp [should_pause_at_event, claim_matches, SDKEvent.itemOf]
      | some itm =>
        cases htn : itm.name with
        | none =>
          cases bps with
          | nil => simp [should_pause_at_event, claim_matches, SDKEvent.nameOf, SDKEvent.typeOf, SDKEvent.itemOf, htn]
          | cons b rest => simp [should_pause_at_event, claim_matches, SDKEvent.nameOf, SDKEvent.typeOf, SDKEvent.itemOf, htn]
        | some tn =>
          by_cases hemp : tn = ""
          · cases bps with
            | nil => simp [should_pause_at_event, claim_matches, SDKEvent.nameOf, SDKEvent.typeOf, SDKEvent.itemOf, htn]
            | cons b rest =>
              have h0 := hcontains tn hemp
              subst hemp
              simp only [List.mem_cons, decide_eq_false_iff_not, not_or] at h0
              simp [should_pause_at_event, claim_matches, SDKEvent.nameOf, SDKEvent.typeOf, SDKEvent.itemOf, htn,
                List.contains_cons, any_decide_eq_contains, h0.1, h0.2]
          · have hne2 : (tn != "") = true := by simpa using hemp
            cases bps with
            | nil => simp [should_pause_at_event, claim_matches, SDKEvent.nameOf, SDKEvent.typeOf, SDKEvent.itemOf, htn]
            | cons b rest =>
              simp [should_pause_at_event, claim_matches, SDKEvent.nameOf, SDKEvent.typeOf, SDKEvent.itemOf, htn,
                hne2, List.contains_cons, beq_eq_decide, List.mem_cons]
              congr 1
              · exact decide_eq_decide.mpr Iff.rfl
              · rw [show (fun bp => @decide (tn = bp) (Classical.propDecidable _)) =
                    (fun bp => decide (tn = bp)) from
                  funext fun bp => decide_eq_decide.mpr Iff.rfl]
                exact any_decide_eq_contains rest tn
    · by_cases hn2 : n = "handoff_requested"
      · subst hn2
        cases it with
        | none =>
          cases bps with
          | nil => simp [should_pause_at_event, claim_matches, SDKEvent.nameOf, SDKEvent.typeOf, SDKEvent.itemOf]
          | cons b rest => simp [should_pause_at_event, claim_matches, SDKEvent.itemOf]
        | some itm =>
          cases hta : itm.target_agent with
          | none =>
            cases bps with
            | nil => simp [should_pause_at_event, claim_matches, SDKEvent.nameOf, SDKEvent.typeOf, SDKEvent.itemOf, hta]
            | cons b rest => simp [should_pause_at_event, claim_matches, SDKEvent.nameOf, SDKEvent.typeOf, SDKEvent.itemOf, hta]
          | some ta =>
            cases han : ta.name with
            | none =>
              cases bps with
              | nil => simp [should_pause_at_event, claim_matches, SDKEvent.nameOf, SDKEvent.typeOf, SDKEvent.itemOf, hta, han]
              | cons b rest => simp [should_pause_at_event, claim_matches, SDKEvent.nameOf, SDKEvent.typeOf, SDKEvent.itemOf, hta, han]
            | some an =>
              by_cases hemp : an = ""
              · cases bps with
                | nil => simp [should_pause_at_event, claim_matches, SDKEvent.nameOf, SDKEvent.typeOf, SDKEvent.itemOf, hta, han]
                | cons b rest =>
                  have h0 := hcontains an hemp
                  subst hemp
                  simp only [List.mem_cons, decide_eq_false_iff_not, not_or] at h0
                  simp [should_pause_at_event, claim_matches, SDKEvent.nameOf, SDKEvent.typeOf, SDKEvent.itemOf, hta, han,
                    List.contains_cons, any_decide_eq_contains, h0.1, h0.2]
              · have hne2 : (an != "") = true := by simpa using hemp
                cases bps with
                | nil => simp [should_pause_at_event, claim_matches, SDKEvent.nameOf, SDKEvent.typeOf, SDKEvent.itemOf, hta, han]
                | cons b rest =>
                  simp [should_pause_at_event, claim_matches, SDKEvent.nameOf, SDKEvent.typeOf, SDKEvent.itemOf, hta, han,
                    hne2, List.contains_cons, beq_eq_decide, List.mem_cons]
                  congr 1
                  · exact decide_eq_decide.mpr Iff.rfl
                  · rw [show (fun bp => @decide (an = bp) (Classical.propDecidable _)) =
                        (fun bp => decide (an = bp)) from
                      funext fun bp => decide_eq_decide.mpr Iff.rfl]
                    exact any_decide_eq_contains rest an
      · cases bps with
        | nil => simp [should_pause_at_event, claim_matches, SDKEvent.nameOf, SDKEvent.typeOf, SDKEvent.itemOf, hn, hn2]
        | cons b rest =>
          simp [should_pause_at_event, claim_matches, SDKEvent.nameOf, SDKEvent.typeOf, SDKEvent.itemOf, hn, hn2]

/-- C1: for every breakpoint configuration given as a list of names, the
streamed run pauses exactly at the `tool_called` events whose tool name
is configured and the `handoff_requested` events whose target agent name
is configured, and at no other event: its observable trace equals the
trace the claim describes, in which a paused event yields the breakpoint
result and then, when a resume primitive was supplied, clears and awaits
it; when no resume primitive was supplied the trace contains no clear
and no await at all, so execution continues immediately. -/
theorem c1_breakpoint_pausing :
    ∀ (events : List SDKEvent) (bps : List String) (hasResume stream_ev : Bool),
    (∀ b ∈ bps, b ≠ "") →
    run_agent_streamed events (.names bps) hasResume stream_ev =
      claim_pause_trace events bps hasResume stream_ev ∧
    (hasResume = false →
      TraceStep.clearResume ∉ run_agent_streamed events (.names bps) hasResume stream_ev ∧
      TraceStep.awaitResume ∉ run_agent_streamed events (.names bps) hasResume stream_ev) := by
  intro events bps hasResume stream_ev h
  constructor
  · unfold run_agent_streamed claim_pause_trace
    congr 1
    induction events with
    | nil => rfl
    | cons e rest ih =>
      simp only [List.flatMap_cons]
      rw [should_pause_names_eq_claim_matches e bps h, ih]
  · intro hr
    subst hr
    have main : ∀ t ∈ run_agent_streamed events (.names bps) false stream_ev,
        t ≠ TraceStep.clearResume ∧ t ≠ TraceStep.awaitResume := by
      intro t ht
      unfold run_agent_streamed at ht
      rcases List.mem_append.mp ht with ht | ht
      · rcases List.mem_flatMap.mp ht with ⟨e, _, ht2⟩
        rcases List.mem_append.mp ht2 with ht3 | ht3
        · by_cases hp : should_pause_at_event e (.names bps) = true
          · rw [if_pos hp] at ht3
            simp at ht3
            subst ht3
            exact ⟨(fun hc => nomatch hc), (fun hc => nomatch hc)⟩
          · rw [if_neg hp] at ht3
            cases ht3
        · by_cases hs : stream_ev = true
          · rw [if_pos hs] at ht3
            cases hconv : convert_stream_event e with
            | none => rw [hconv] at ht3; cases ht3
            | some ev =>
              rw [hconv] at ht3
              simp at ht3
              subst ht3
              exact ⟨(fun hc => nomatch hc), (fun hc => nomatch hc)⟩
          · rw [if_neg hs] at ht3
            cases ht3
      · simp at ht
        subst ht
        exact ⟨(fun hc => nomatch hc), (fun hc => nomatch hc)⟩
    exact ⟨fun hmem => (main _ hmem).1 rfl, fun hmem => (main _ hmem).2 rfl⟩

/-- Witness for C1 at a concrete stream: one matching tool call, one raw
response and one non-matching tool call, with a resume primitive
supplied; and the same stream without a resume primitive contains no
clear or await step. -/
theorem c1_breakpoint_pausing_witness :
    run_agent_streamed
        [.runItem "tool_called" (some ⟨some "calc", none⟩), .rawResponse,
         .runItem "tool_called" (some ⟨some "other", none⟩)]
        (.names ["calc"]) true true =
      claim_pause_trace
        [.runItem "tool_called" (some ⟨some "calc", none⟩), .rawResponse,
         .runItem "tool_called" (some ⟨some "other", none⟩)]
        ["calc"] true true ∧
    TraceStep.clearResume ∉ run_agent_streamed
        [.runItem "tool_called" (some ⟨some "calc", none⟩), .rawResponse,
         .runItem "tool_called" (some ⟨some "other", none⟩)]
        (.names ["calc"]) false true := by
  refine ⟨?_, ?_⟩
  · exact (c1_breakpoint_pausing _ ["calc"] true true (by decide)).1
  · exact ((c1_breakpoint_pausing _ ["calc"] false true (by decide)).2 rfl).1

/-! ## Claim C2 -/

/-- On a non-resuming run the event loop suspends at the first
`InputRequiredEvent`. -/
theorem scan_not_resuming (events : List WfEvent) (b : Bool) :
    (scan_for_suspend false events b).2 = events.find? isInputRequired := by
  induction events generalizing b with
  | nil => rfl
  | cons e rest ih =>
    by_cases he : isInputRequired e = true
    · simp [scan_for_suspend, he, List.find?_cons_of_pos]
    · have he2 : isInputRequired e = false := by simpa using he
      simp [scan_for_suspend, he2, List.find?_cons_of_neg, ih]

/-- Once the first `InputRequiredEvent` has been skipped, a resuming run
suspends at the next one. -/
theorem scan_resuming_after_skip (events : List WfEvent) :
    (scan_for_suspend true events true).2 = events.find? isInputRequired := by
  induction events with
  | nil => rfl
  | cons e rest ih =>
    by_cases he : isInputRequired e = true
    · simp [scan_for_suspend, he, List.find?_cons_of_pos]
    · have he2 : isInputRequired e = false := by simpa using he
      simp [scan_for_suspend, he2, List.find?_cons_of_neg, ih]

/-- A resuming run suspends exactly when the stream holds at least two
`InputRequiredEvent`s (the first is consumed by the resume). -/
theorem scan_resuming_iff (events : List WfEvent) :
    (scan_for_suspend true events false).2.isSome ↔
      2 ≤ events.countP (fun e => isInputRequired e) := by
  induction events with
  | nil => simp [scan_for_suspend]
  | cons e rest ih =>
    by_cases he : isInputRequired e = true
    · rw [show (scan_for_suspend true (e :: rest) false).2 =
          (scan_for_suspend true rest true).2 from by simp [scan_for_suspend, he]]
      rw [scan_resuming_after_skip, List.countP_cons_of_pos _ _ he]
      rw [List.find?_isSome]
      constructor
      · intro hex
        exact Nat.succ_le_succ (List.countP_pos_iff.mpr hex)
      · intro hle
        exact List.countP_pos_iff.mp (Nat.le_of_succ_le_succ hle)
    · have he2 : isInputRequired e = false := by simpa using he
      rw [show (scan_for_suspend true (e :: rest) false).2 =
          (scan_for_suspend true rest false).2 from by simp [scan_for_suspend, he2]]
      rw [List.countP_cons_of_neg _ _ (by simp [he2])]
      exact ih

/-- C2: on a non-resuming run with storage configured, the workflow run
returns SUSPENDED exactly when the stream emits an
`InputRequiredEvent`, in which case the serialized context is saved to
storage and the in-flight run is cancelled (otherwise it completes
SUCCESSFUL with no save and no cancel); a resuming call with a stored
context dictionary runs the workflow with the context deserialized from
storage and **no start event** (continuing from the saved step instead
of restarting), sends a `HumanResponseEvent` built from the input
dictionary into that context, and suspends again only at an
`InputRequiredEvent` after the first. -/
theorem c2_suspend_resume :
    ∀ (ctxToDict : ContextModel → Json) (input : Option Json)
      (events : List WfEvent) (stored : Option Json) (d : Json),
    ((run_workflow ctxToDict input false (some stored) none events).status =
        .SUSPENDED ↔ ∃ e ∈ events, isInputRequired e = true) ∧
    ((∃ e ∈ events, isInputRequired e = true) →
      (run_workflow ctxToDict input false (some stored) none events).saved_context =
        some (ctxToDict
          (run_workflow ctxToDict input false (some stored) none events).invocation.ctx) ∧
      (run_workflow ctxToDict input false (some stored) none events).cancelled = true) ∧
    ((¬∃ e ∈ events, isInputRequired e = true) →
      (run_workflow ctxToDict input false (some stored) none events).status =
        .SUCCESSFUL ∧
      (run_workflow ctxToDict input false (some stored) none events).cancelled = false ∧
      (run_workflow ctxToDict input false (some stored) none events).saved_context = none) ∧
    (jsonTruthy d = true →
      (run_workflow ctxToDict input true (some (some d)) none events).invocation.ctx =
        .fromDict d ∧
      (run_workflow ctxToDict input true (some (some d)) none events).invocation.start_event =
        none ∧
      (run_workflow ctxToDict input true (some (some d)) none events).sent_events =
        [workflow_input_of input] ∧
      ((run_workflow ctxToDict input true (some (some d)) none events).status =
          .SUSPENDED ↔ 2 ≤ events.countP (fun e => isInputRequired e)) ∧
      ((run_workflow ctxToDict input true (some (some d)) none events).status =
          .SUSPENDED →
        (run_workflow ctxToDict input true (some (some d)) none events).saved_context =
          some (ctxToDict (.fromDict d)) ∧
        (run_workflow ctxToDict input true (some (some d)) none events).cancelled = true)) := by
  intro ctxToDict input events stored d
  have hfresh : (run_workflow ctxToDict input false (some stored) none events).status =
      .SUSPENDED ↔ (scan_for_suspend false events false).2.isSome := by
    unfold run_workflow
    cases hs : (scan_for_suspend false events false).2 with
    | none => simp [hs]
    | some ev => simp [hs]
  have hfind := scan_not_resuming events false
  refine ⟨?_, ?_, ?_, ?_⟩
  · rw [hfresh, hfind, List.find?_isSome]
  · intro hex
    have hsome : (scan_for_suspend false events false).2.isSome := by
      rw [hfind, List.find?_isSome]
      exact hex
    unfold run_workflow
    cases hs : (scan_for_suspend false events false).2 with
    | none => rw [hs] at hsome; cases hsome
    | some ev => simp [hs]
  · intro hex
    have hnone : (scan_for_suspend false events false).2 = none := by
      cases hs : (scan_for_suspend false events false).2 with
      | none => rfl
      | some ev =>
        exact absurd (by rw [← List.find?_isSome, ← hfind, hs]; rfl) hex
    unfold run_workflow
    simp [hnone]
  · intro hd
    have hctx : load_context_model (some (some d)) = .fromDict d := by
      simp [load_context_model, hd]
    have hres : (run_workflow ctxToDict input true (some (some d)) none events).status =
        .SUSPENDED ↔ (scan_for_suspend true events false).2.isSome := by
      unfold run_workflow
      cases hs : (scan_for_suspend true events false).2 with
      | none => simp [hs]
      | some ev => simp [hs]
    refine ⟨?_, ?_, ?_, ?_, ?_⟩
    · unfold run_workflow
      cases hs : (scan_for_suspend true events false).2 with
      | none => simp [hs, hctx]
      | some ev => simp [hs, hctx]
    · unfold run_workflow
      cases hs : (scan_for_suspend true events false).2 with
      | none => simp [hs]
      | some ev => simp [hs]
    · unfold run_workflow
      cases hs : (scan_for_suspend true events false).2 with
      | none => simp [hs]
      | some ev => simp [hs]
    · rw [hres]
      exact scan_resuming_iff events
    · intro hsusp
      have hsome : (scan_for_suspend true events false).2.isSome := (hres.mp hsusp)
      unfold run_workflow
      cases hs : (scan_for_suspend true events false).2 with
      | none => rw [hs] at hsome; cases hsome
      | some ev => simp [hs, hctx]

/-- Witness for C2 at a concrete run: one `InputRequiredEvent` on a
fresh run suspends with the context saved and the run cancelled, and a
resuming run with a stored dictionary is invoked on the deserialized
context with no start event and the human response sent. -/
theorem c2_suspend_resume_witness :
    (run_workflow (fun _ => Json.null) (some (.obj [("response", .str "yes")]))
        false (some none) none [.inputRequired none]).status = .SUSPENDED ∧
    (run_workflow (fun _ => Json.null) (some (.obj [("response", .str "yes")]))
        false (some none) none [.inputRequired none]).cancelled = true ∧
    (run_workflow (fun _ => Json.null) (some (.obj [("response", .str "yes")]))
        true (some (some (.obj [("k", .str "v")]))) none
        [.inputRequired none]).invocation.ctx = .fromDict (.obj [("k", .str "v")]) ∧
    (run_workflow (fun _ => Json.null) (some (.obj [("response", .str "yes")]))
        true (some (some (.obj [("k", .str "v")]))) none
        [.inputRequired none]).invocation.start_event = none ∧
    (run_workflow (fun _ => Json.null) (some (.obj [("response", .str "yes")]))
        true (some (some (.obj [("k", .str "v")]))) none
        [.inputRequired none]).sent_events =
      [workflow_input_of (some (.obj [("response", .str "yes")]))] := by
  have h := c2_suspend_resume (fun _ => Json.null)
    (some (.obj [("response", .str "yes")])) [.inputRequired none] none
    (.obj [("k", .str "v")])
  have hex : ∃ e ∈ [WfEvent.inputRequired none], isInputRequired e = true :=
    ⟨.inputRequired none, by simp, rfl⟩
  have hres := h.2.2.2 rfl
  exact ⟨h.1.mpr hex, (h.2.1 hex).2, hres.1, hres.2.1, hres.2.2.1⟩

/-! ## Claim C6: lemmas about references, sizes and the fuel bound -/

theorem refStrings_obj (kvs : List (String × Json)) :
    refStrings (.obj kvs) = refStringsFields kvs := by
  simp [refStrings]

theorem refStrings_arr (items : List Json) :
    refStrings (.arr items) = refStringsList items := by
  simp [refStrings]

theorem refStringsFields_cons (k : String) (v : Json)
    (rest : List (String × Json)) :
    refStringsFields ((k, v) :: rest) =
      (if k = "$ref" then
        (match v with
         | .str s => [s]
         | _ => [])
       else []) ++ refStrings v ++ refStringsFields rest := by
  simp [refStringsFields]

theorem refStringsList_cons (j : Json) (rest : List Json) :
    refStringsList (j :: rest) = refStrings j ++ refStringsList rest := by
  simp [refStringsList]

/-- A value stored in a dictionary contributes its references to the
dictionary's references. -/
theorem refStrings_lookupKey (kvs : List (String × Json)) (p : String)
    (v : Json) (h : lookupKey kvs p = some v) :
    ∀ x ∈ refStrings v, x ∈ refStringsFields kvs := by
  induction kvs with
  | nil => cases h
  | cons kv rest ih =>
    obtain ⟨k, w⟩ := kv
    intro x hx
    rw [refStringsFields_cons]
    by_cases hk : k = p
    · simp only [lookupKey, hk, if_pos rfl] at h
      obtain rfl : w = v := Option.some.inj h
      simp [List.mem_append, hx]
    · simp only [lookupKey, hk, if_neg hk] at h
      simp [List.mem_append, ih h x hx]

/-- The string value of a `$ref` key is among the dictionary's
references. -/
theorem refStrings_ref_mem (kvs : List (String × Json)) (s : String)
    (h : lookupKey kvs "$ref" = some (.str s)) :
    s ∈ refStringsFields kvs := by
  induction kvs with
  | nil => cases h
  | cons kv rest ih =>
    obtain ⟨k, w⟩ := kv
    rw [refStringsFields_cons]
    by_cases hk : k = "$ref"
    · simp only [lookupKey, hk, if_pos rfl] at h
      obtain rfl : w = .str s := Option.some.inj h
      simp [hk]
    · simp only [lookupKey, hk, if_neg hk] at h
      simp [List.mem_append, ih h]

/-- Walking a reference path stays inside the root's references. -/
theorem refStrings_lookupPath (parts : List String) (j r : Json)
    (h : lookupPath j parts = some r) :
    ∀ x ∈ refStrings r, x ∈ refStrings j := by
  induction parts generalizing j with
  | nil =>
    obtain rfl : j = r := Option.some.inj h
    exact fun x hx => hx
  | cons p rest ih =>
    cases j with
    | obj kvs =>
      simp only [lookupPath] at h
      intro x hx
      cases hk : lookupKey kvs p with
      | none =>
        rw [hk] at h
        have := ih _ h x hx
        simp [refStrings, refStringsFields] at this
      | some v =>
        rw [hk] at h
        rw [refStrings_obj]
        exact refStrings_lookupKey kvs p v hk x (ih _ h x hx)
    | null => cases h
    | bool b => cases h
    | num n => cases h
    | str s2 => cases h
    | arr items => cases h

theorem jsonSize_pos (j : Json) : 1 ≤ jsonSize j := by
  cases j <;> simp [jsonSize]

theorem jsonSizeList_pos (l : List Json) : 1 ≤ jsonSizeList l := by
  cases l <;> simp [jsonSizeList] <;> omega

theorem jsonSizeFields_pos (l : List (String × Json)) : 1 ≤ jsonSizeFields l := by
  cases l with
  | nil => simp [jsonSizeFields]
  | cons kv rest =>
    obtain ⟨k, v⟩ := kv
    simp [jsonSizeFields]
    omega

theorem jsonSize_lookupKey (kvs : List (String × Json)) (p : String) (v : Json)
    (h : lookupKey kvs p = some v) : jsonSize v ≤ jsonSizeFields kvs := by
  induction kvs with
  | nil => cases h
  | cons kv rest ih =>
    obtain ⟨k, w⟩ := kv
    by_cases hk : k = p
    · simp only [lookupKey, hk, if_pos rfl] at h
      obtain rfl : w = v := Option.some.inj h
      simp [jsonSizeFields]
      omega
    · simp only [lookupKey, hk, if_neg hk] at h
      have := ih h
      simp [jsonSizeFields]
      omega

/-- The schema a reference path reaches is at most one bigger than the
document it is resolved against (the `+ 1` absorbs the empty dictionary
default of a failed key lookup). -/
theorem jsonSize_lookupPath (parts : List String) (j r : Json)
    (h : lookupPath j parts = some r) : jsonSize r ≤ jsonSize j + 1 := by
  induction parts generalizing j with
  | nil =>
    obtain rfl : j = r := Option.some.inj h
    omega
  | cons p rest ih =>
    cases j with
    | obj kvs =>
      simp only [lookupPath] at h
      cases hk : lookupKey kvs p with
      | none =>
        rw [hk] at h
        have h2 := ih _ h
        have h3 := jsonSizeFields_pos kvs
        simp [jsonSize, jsonSizeFields] at h2 ⊢
        omega
      | some v =>
        rw [hk] at h
        have h2 := ih _ h
        have h3 := jsonSize_lookupKey kvs p v hk
        simp [jsonSize] at h2 ⊢
        omega
    | null => cases h
    | bool b => cases h
    | num n => cases h
    | str s2 => cases h
    | arr items => cases h

theorem remRefs_mono {S S2 : Finset String} (visited : List String)
    (h : S ⊆ S2) : remRefs S visited ≤ remRefs S2 visited :=
  Finset.card_le_card (Finset.sdiff_subset_sdiff h (Finset.Subset.refl _))

/-- Expanding a fresh reference strictly shrinks the set of references
not yet on the path. -/
theorem remRefs_push_lt {S S2 : Finset String} (visited : List String)
    (s : String) (hmem : s ∈ S2) (hvis : s ∉ visited) (hsub : S ⊆ S2) :
    remRefs S (s :: visited) < remRefs S2 visited := by
  have hin : s ∈ S2 \ visited.toFinset := by
    simp [Finset.mem_sdiff, hmem, hvis]
  have hsub2 : S \ (s :: visited).toFinset ⊆ (S2 \ visited.toFinset).erase s := by
    intro x hx
    rw [Finset.mem_sdiff] at hx
    obtain ⟨hx1, hx2⟩ := hx
    simp only [List.toFinset_cons, Finset.mem_insert, not_or] at hx2
    rw [Finset.mem_erase, Finset.mem_sdiff]
    exact ⟨hx2.1, hsub hx1, hx2.2⟩
  calc remRefs S (s :: visited) ≤ ((S2 \ visited.toFinset).erase s).card :=
        Finset.card_le_card hsub2
    _ < (S2 \ visited.toFinset).card := Finset.card_erase_lt_of_mem hin
    _ = remRefs S2 visited := rfl

theorem refSet_obj (kvs : List (String × Json)) :
    refSet (.obj kvs) = refSetFields kvs := by
  simp [refSet, refSetFields, refStrings_obj]

theorem refSet_arr (items : List Json) :
    refSet (.arr items) = refSetList items := by
  simp [refSet, refSetList, refStrings_arr]

theorem refSet_lookupPath_sub (parts : List String) (j r : Json)
    (h : lookupPath j parts = some r) : refSet r ⊆ refSet j := by
  intro x hx
  rw [refSet, List.mem_toFinset] at hx ⊢
  exact refStrings_lookupPath parts j r h x hx

theorem refSetFields_cons_left (k : String) (v : Json)
    (rest : List (String × Json)) :
    refSet v ⊆ refSetFields ((k, v) :: rest) := by
  intro x hx
  rw [refSet, List.mem_toFinset] at hx
  rw [refSetFields, List.mem_toFinset, refStringsFields_cons]
  simp [List.mem_append, hx]

theorem refSetFields_cons_right (k : String) (v : Json)
    (rest : List (String × Json)) :
    refSetFields rest ⊆ refSetFields ((k, v) :: rest) := by
  intro x hx
  rw [refSetFields, List.mem_toFinset] at hx
  rw [refSetFields, List.mem_toFinset, refStringsFields_cons]
  simp [List.mem_append, hx]

theorem refSetList_cons_left (j : Json) (rest : List Json) :
    refSet j ⊆ refSetList (j :: rest) := by
  intro x hx
  rw [refSet, List.mem_toFinset] at hx
  rw [refSetList, List.mem_toFinset, refStringsList_cons]
  simp [List.mem_append, hx]

theorem refSetList_cons_right (j : Json) (rest : List Json) :
    refSetList rest ⊆ refSetList (j :: rest) := by
  intro x hx
  rw [refSetList, List.mem_toFinset] at hx
  rw [refSetList, List.mem_toFinset, refStringsList_cons]
  simp [List.mem_append, hx]

theorem refSet_ref_mem (kvs : List (String × Json)) (s : String)
    (h : lookupKey kvs "$ref" = some (.str s)) :
    s ∈ refSetFields kvs := by
  rw [refSetFields, List.mem_toFinset]
  exact refStrings_ref_mem kvs s h

/-- With fuel at least the size of the schema plus one root-size
allowance per reference not yet on the path, `resolve_refs` never runs
out of fuel (and likewise for its list and dictionary helpers). -/
theorem resolve_refs_sufficient :
    ∀ fuel : Nat,
      (∀ (root : Json) (visited : List String) (schema : Json),
        jsonSize schema +
          remRefs (refSet schema ∪ refSet root) visited * (jsonSize root + 2) ≤ fuel →
        resolve_refs fuel root visited schema ≠ .fuelOut) ∧
      (∀ (root : Json) (visited : List String) (items : List Json),
        jsonSizeList items +
          remRefs (refSetList items ∪ refSet root) visited * (jsonSize root + 2) ≤ fuel →
        resolve_refs_list fuel root visited items ≠ .fuelOut) ∧
      (∀ (root : Json) (visited : List String) (kvs : List (String × Json)),
        jsonSizeFields kvs +
          remRefs (refSetFields kvs ∪ refSet root) visited * (jsonSize root + 2) ≤ fuel →
        resolve_refs_fields fuel root visited kvs ≠ .fuelOut) := by
  intro fuel
  induction fuel with
  | zero =>
    refine ⟨?_, ?_, ?_⟩
    · intro root visited schema hb
      have := jsonSize_pos schema
      omega
    · intro root visited items hb
      have := jsonSizeList_pos items
      omega
    · intro root visited kvs hb
      have := jsonSizeFields_pos kvs
      omega
  | succ f ih =>
    obtain ⟨ihJ, ihrest⟩ := ih
    obtain ⟨ihL, ihF⟩ := ihrest
    refine ⟨?_, ?_, ?_⟩
    · intro root visited schema hb
      cases schema with
      | null => simp [resolve_refs]
      | bool b => simp [resolve_refs]
      | num n => simp [resolve_refs]
      | str s => simp [resolve_refs]
      | arr items =>
        have hb2 : jsonSizeList items +
            remRefs (refSetList items ∪ refSet root) visited * (jsonSize root + 2) ≤ f := by
          rw [refSet_arr] at hb
          have : jsonSize (.arr items) = 1 + jsonSizeList items := by simp [jsonSize]
          omega
        have h3 := ihL root visited items hb2
        cases hl : resolve_refs_list f root visited items with
        | fuelOut => exact absurd hl h3
        | raised => simp [resolve_refs, hl]
        | ok l => simp [resolve_refs, hl]
      | obj kvs =>
        cases href : lookupKey kvs "$ref" with
        | some v =>
          cases v with
          | str ref_path =>
            by_cases hmem : ref_path ∈ visited
            · simp [resolve_refs, href, hmem]
            · cases hlp : lookupPath root (refParts ref_path) with
              | none => simp [resolve_refs, href, hmem, hlp]
              | some ref_schema =>
                have hsize := jsonSize_lookupPath _ _ _ hlp
                have hsub : refSet ref_schema ∪ refSet root ⊆
                    refSet (.obj kvs) ∪ refSet root := by
                  apply Finset.union_subset
                  · exact (refSet_lookupPath_sub _ _ _ hlp).trans
                      Finset.subset_union_right
                  · exact Finset.subset_union_right
                have hmem2 : ref_path ∈ refSet (.obj kvs) ∪ refSet root := by
                  apply Finset.mem_union_left
                  rw [refSet_obj]
                  exact refSet_ref_mem kvs ref_path href
                have hlt := remRefs_push_lt visited ref_path hmem2 hmem hsub
                obtain ⟨rp, hrp⟩ : ∃ rp,
                    remRefs (refSet (.obj kvs) ∪ refSet root) visited = rp + 1 :=
                  ⟨remRefs (refSet (.obj kvs) ∪ refSet root) visited - 1, by omega⟩
                have h1 : remRefs (refSet ref_schema ∪ refSet root)
                      (ref_path :: visited) * (jsonSize root + 2) ≤
                    rp * (jsonSize root + 2) :=
                  Nat.mul_le_mul_right _ (by omega)
                have h2 : remRefs (refSet (.obj kvs) ∪ refSet root) visited *
                      (jsonSize root + 2) =
                    rp * (jsonSize root + 2) + (jsonSize root + 2) := by
                  rw [hrp, Nat.succ_mul]
                have hSF := jsonSizeFields_pos kvs
                have hb3 : 1 + jsonSizeFields kvs +
                    remRefs (refSet (.obj kvs) ∪ refSet root) visited *
                      (jsonSize root + 2) ≤ f + 1 := by
                  have : jsonSize (.obj kvs) = 1 + jsonSizeFields kvs := by
                    simp [jsonSize]
                  omega
                have hb2 : jsonSize ref_schema +
                    remRefs (refSet ref_schema ∪ refSet root)
                      (ref_path :: visited) * (jsonSize root + 2) ≤ f := by
                  omega
                have h3 := ihJ root (ref_path :: visited) ref_schema hb2
                cases hrec : resolve_refs f root (ref_path :: visited) ref_schema with
                | fuelOut => exact absurd hrec h3
                | raised => simp [resolve_refs, href, hmem, hlp, hrec]
                | ok j2 => simp [resolve_refs, href, hmem, hlp, hrec]
          | null => simp [resolve_refs, href]
          | bool b => simp [resolve_refs, href]
          | num n => simp [resolve_refs, href]
          | arr l => simp [resolve_refs, href]
          | obj kvs2 => simp [resolve_refs, href]
        | none =>
          have hb2 : jsonSizeFields kvs +
              remRefs (refSetFields kvs ∪ refSet root) visited *
                (jsonSize root + 2) ≤ f := by
            rw [refSet_obj] at hb
            have : jsonSize (.obj kvs) = 1 + jsonSizeFields kvs := by
              simp [jsonSize]
            omega
          have h3 := ihF root visited kvs hb2
          cases hf : resolve_refs_fields f root visited kvs with
          | fuelOut => exact absurd hf h3
          | raised => simp [resolve_refs, href, hf]
          | ok l => simp [resolve_refs, href, hf]
    · intro root visited items hb
      cases items with
      | nil => simp [resolve_refs_list]
      | cons j rest =>
        have hm1 := remRefs_mono visited
          (Finset.union_subset_union (refSetList_cons_left j rest)
            (Finset.Subset.refl (refSet root)))
        have hm2 := remRefs_mono visited
          (Finset.union_subset_union (refSetList_cons_right j rest)
            (Finset.Subset.refl (refSet root)))
        have hmul1 := Nat.mul_le_mul_right (jsonSize root + 2) hm1
        have hmul2 := Nat.mul_le_mul_right (jsonSize root + 2) hm2
        have hb0 : 1 + jsonSize j + jsonSizeList rest +
            remRefs (refSetList (j :: rest) ∪ refSet root) visited *
              (jsonSize root + 2) ≤ f + 1 := by
          have : jsonSizeList (j :: rest) = 1 + jsonSize j + jsonSizeList rest := by
            simp [jsonSizeList]
          omega
        have hposr := jsonSizeList_pos rest
        have hposj := jsonSize_pos j
        have hb1 : jsonSize j +
            remRefs (refSet j ∪ refSet root) visited * (jsonSize root + 2) ≤ f := by
          omega
        have hb2 : jsonSizeList rest +
            remRefs (refSetList rest ∪ refSet root) visited * (jsonSize root + 2) ≤ f := by
          omega
        have h3 := ihJ root visited j hb1
        have h4 := ihL root visited rest hb2
        cases h5 : resolve_refs f root visited j with
        | fuelOut => exact absurd h5 h3
        | raised => simp [resolve_refs_list, h5]
        | ok j2 =>
          cases h6 : resolve_refs_list f root visited rest with
          | fuelOut => exact absurd h6 h4
          | raised => simp [resolve_refs_list, h5, h6]
          | ok l => simp [resolve_refs_list, h5, h6]
    · intro root visited kvs hb
      cases kvs with
      | nil => simp [resolve_refs_fields]
      | cons kv rest =>
        obtain ⟨k, v⟩ := kv
        have hm1 := remRefs_mono visited
          (Finset.union_subset_union (refSetFields_cons_left k v rest)
            (Finset.Subset.refl (refSet root)))
        have hm2 := remRefs_mono visited
          (Finset.union_subset_union (refSetFields_cons_right k v rest)
            (Finset.Subset.refl (refSet root)))
        have hmul1 := Nat.mul_le_mul_right (jsonSize root + 2) hm1
        have hmul2 := Nat.mul_le_mul_right (jsonSize root + 2) hm2
        have hb0 : 1 + jsonSize v + jsonSizeFields rest +
            remRefs (refSetFields ((k, v) :: rest) ∪ refSet root) visited *
              (jsonSize root + 2) ≤ f + 1 := by
          have : jsonSizeFields ((k, v) :: rest) =
              1 + jsonSize v + jsonSizeFields rest := by
            simp [jsonSizeFields]
          omega
        have hposr := jsonSizeFields_pos rest
        have hposv := jsonSize_pos v
        have hb1 : jsonSize v +
            remRefs (refSet v ∪ refSet root) visited * (jsonSize root + 2) ≤ f := by
          omega
        have hb2 : jsonSizeFields rest +
            remRefs (refSetFields rest ∪ refSet root) visited * (jsonSize root + 2) ≤ f := by
          omega
        have h3 := ihJ root visited v hb1
        have h4 := ihF root visited rest hb2
        cases h5 : resolve_refs f root visited v with
        | fuelOut => exact absurd h5 h3
        | raised => simp [resolve_refs_fields, h5]
        | ok j2 =>
          cases h6 : resolve_refs_fields f root visited rest with
          | fuelOut => exact absurd h6 h4
          | raised => simp [resolve_refs_fields, h5, h6]
          | ok l => simp [resolve_refs_fields, h5, h6]

/-- A run that does not exhaust its fuel computes the same result at any
larger fuel. -/
theorem resolve_refs_mono :
    ∀ fuel : Nat,
      (∀ (fuel2 : Nat) (root : Json) (visited : List String) (schema : Json),
        fuel ≤ fuel2 → resolve_refs fuel root visited schema ≠ .fuelOut →
        resolve_refs fuel2 root visited schema =
          resolve_refs fuel root visited schema) ∧
      (∀ fuel2 root visited (items : List Json),
        fuel ≤ fuel2 → resolve_refs_list fuel root visited items ≠ .fuelOut →
        resolve_refs_list fuel2 root visited items =
          resolve_refs_list fuel root visited items) ∧
      (∀ fuel2 root visited (kvs : List (String × Json)),
        fuel ≤ fuel2 → resolve_refs_fields fuel root visited kvs ≠ .fuelOut →
        resolve_refs_fields fuel2 root visited kvs =
          resolve_refs_fields fuel root visited kvs) := by
  intro fuel
  induction fuel with
  | zero =>
    refine ⟨?_, ?_, ?_⟩
    · intro fuel2 root visited schema _ hne
      exact absurd rfl hne
    · intro fuel2 root visited items _ hne
      exact absurd rfl hne
    · intro fuel2 root visited kvs _ hne
      exact absurd rfl hne
  | succ f ih =>
    obtain ⟨ihJ, ihrest⟩ := ih
    obtain ⟨ihL, ihF⟩ := ihrest
    refine ⟨?_, ?_, ?_⟩
    · intro fuel2 root visited schema hle hne
      obtain ⟨f2, rfl⟩ : ∃ f2, fuel2 = f2 + 1 := ⟨fuel2 - 1, by omega⟩
      have hle2 : f ≤ f2 := by omega
      cases schema with
      | null => simp [resolve_refs]
      | bool b => simp [resolve_refs]
      | num n => simp [resolve_refs]
      | str s => simp [resolve_refs]
      | arr items =>
        have hlne : resolve_refs_list f root visited items ≠ .fuelOut := by
          intro hl
          exact hne (by simp [resolve_refs, hl])
        simp [resolve_refs, ihL f2 root visited items hle2 hlne]
      | obj kvs =>
        cases href : lookupKey kvs "$ref" with
        | some v =>
          cases v with
          | str ref_path =>
            by_cases hmem : ref_path ∈ visited
            · simp [resolve_refs, href, hmem]
            · cases hlp : lookupPath root (refParts ref_path) with
              | none => simp [resolve_refs, href, hmem, hlp]
              | some ref_schema =>
                have hrne : resolve_refs f root (ref_path :: visited) ref_schema ≠
                    .fuelOut := by
                  intro hl
                  exact hne (by simp [resolve_refs, href, hmem, hlp, hl])
                simp [resolve_refs, href, hmem, hlp,
                  ihJ f2 root (ref_path :: visited) ref_schema hle2 hrne]
          | null => simp [resolve_refs, href]
          | bool b => simp [resolve_refs, href]
          | num n => simp [resolve_refs, href]
          | arr l => simp [resolve_refs, href]
          | obj kvs2 => simp [resolve_refs, href]
        | none =>
          have hfne : resolve_refs_fields f root visited kvs ≠ .fuelOut := by
            intro hl
            exact hne (by simp [resolve_refs, href, hl])
          simp [resolve_refs, href, ihF f2 root visited kvs hle2 hfne]
    · intro fuel2 root visited items hle hne
      obtain ⟨f2, rfl⟩ : ∃ f2, fuel2 = f2 + 1 := ⟨fuel2 - 1, by omega⟩
      have hle2 : f ≤ f2 := by omega
      cases items with
      | nil => simp [resolve_refs_list]
      | cons j rest =>
        cases h5 : resolve_refs f root visited j with
        | fuelOut => exact absurd (by simp [resolve_refs_list, h5]) hne
        | raised =>
          have := ihJ f2 root visited j hle2 (by rw [h5]; exact fun hc => nomatch hc)
          simp [resolve_refs_list, h5, this]
        | ok j2 =>
          have hj := ihJ f2 root visited j hle2 (by rw [h5]; exact fun hc => nomatch hc)
          cases h6 : resolve_refs_list f root visited rest with
          | fuelOut => exact absurd (by simp [resolve_refs_list, h5, h6]) hne
          | raised =>
            have hr := ihL f2 root visited rest hle2 (by rw [h6]; exact fun hc => nomatch hc)
            simp [resolve_refs_list, h5, h6, hj, hr]
          | ok l =>
            have hr := ihL f2 root visited rest hle2 (by rw [h6]; exact fun hc => nomatch hc)
            simp [resolve_refs_list, h5, h6, hj, hr]
    · intro fuel2 root visited kvs hle hne
      obtain ⟨f2, rfl⟩ : ∃ f2, fuel2 = f2 + 1 := ⟨fuel2 - 1, by omega⟩
      have hle2 : f ≤ f2 := by omega
      cases kvs with
      | nil => simp [resolve_refs_fields]
      | cons kv rest =>
        obtain ⟨k, v⟩ := kv
        cases h5 : resolve_refs f root visited v with
        | fuelOut => exact absurd (by simp [resolve_refs_fields, h5]) hne
        | raised =>
          have := ihJ f2 root visited v hle2 (by rw [h5]; exact fun hc => nomatch hc)
          simp [resolve_refs_fields, h5, this]
        | ok j2 =>
          have hj := ihJ f2 root visited v hle2 (by rw [h5]; exact fun hc => nomatch hc)
          cases h6 : resolve_refs_fields f root visited rest with
          | fuelOut => exact absurd (by simp [resolve_refs_fields, h5, h6]) hne
          | raised =>
            have hr := ihF f2 root visited rest hle2 (by rw [h6]; exact fun hc => nomatch hc)
            simp [resolve_refs_fields, h5, h6, hj, hr]
          | ok l =>
            have hr := ihF f2 root visited rest hle2 (by rw [h6]; exact fun hc => nomatch hc)
            simp [resolve_refs_fields, h5, h6, hj, hr]

theorem hasRefKey_circularPlaceholder (s : String) :
    hasRefKey (circularPlaceholder s) = false := rfl

/-- A normal return of `resolve_refs` contains no unresolved `$ref` key
anywhere; the dictionary helper additionally preserves the keys. -/
theorem resolve_refs_ok_no_ref :
    ∀ fuel : Nat,
      (∀ (root : Json) (visited : List String) (schema j : Json),
        resolve_refs fuel root visited schema = .ok j → hasRefKey j = false) ∧
      (∀ root visited (items : List Json) (out : List Json),
        resolve_refs_list fuel root visited items = .ok out →
        hasRefKeyList out = false) ∧
      (∀ root visited (kvs : List (String × Json)) (out : List (String × Json)),
        resolve_refs_fields fuel root visited kvs = .ok out →
        hasRefKeyFields out = false ∧ out.map Prod.fst = kvs.map Prod.fst) := by
  intro fuel
  induction fuel with
  | zero =>
    refine ⟨?_, ?_, ?_⟩
    · intro root visited schema j h
      cases h
    · intro root visited items out h
      cases h
    · intro root visited kvs out h
      cases h
  | succ f ih =>
    obtain ⟨ihJ, ihrest⟩ := ih
    obtain ⟨ihL, ihF⟩ := ihrest
    refine ⟨?_, ?_, ?_⟩
    · intro root visited schema j h
      cases schema with
      | null =>
        simp only [resolve_refs] at h
        obtain rfl := ROut.ok.inj h
        rfl
      | bool b =>
        simp only [resolve_refs] at h
        obtain rfl := ROut.ok.inj h
        rfl
      | num n =>
        simp only [resolve_refs] at h
        obtain rfl := ROut.ok.inj h
        rfl
      | str s =>
        simp only [resolve_refs] at h
        obtain rfl := ROut.ok.inj h
        rfl
      | arr items =>
        cases hl : resolve_refs_list f root visited items with
        | fuelOut => simp [resolve_refs, hl] at h
        | raised => simp [resolve_refs, hl] at h
        | ok l =>
          simp only [resolve_refs, hl] at h
          obtain rfl := ROut.ok.inj h
          have h2 := ihL root visited items l hl
          simp [hasRefKey, h2]
      | obj kvs =>
        cases href : lookupKey kvs "$ref" with
        | some v =>
          cases v with
          | str ref_path =>
            by_cases hmem : ref_path ∈ visited
            · simp only [resolve_refs, href, hmem, if_pos] at h
              obtain rfl := ROut.ok.inj h
              exact hasRefKey_circularPlaceholder ref_path
            · cases hlp : lookupPath root (refParts ref_path) with
              | none => simp [resolve_refs, href, hmem, hlp] at h
              | some ref_schema =>
                rw [show resolve_refs (f + 1) root visited (.obj kvs) =
                    resolve_refs f root (ref_path :: visited) ref_schema from by
                  simp [resolve_refs, href, hmem, hlp]] at h
                exact ihJ root (ref_path :: visited) ref_schema j h
          | null => simp [resolve_refs, href] at h
          | bool b => simp [resolve_refs, href] at h
          | num n => simp [resolve_refs, href] at h
          | arr l => simp [resolve_refs, href] at h
          | obj kvs2 => simp [resolve_refs, href] at h
        | none =>
          cases hf : resolve_refs_fields f root visited kvs with
          | fuelOut => simp [resolve_refs, href, hf] at h
          | raised => simp [resolve_refs, href, hf] at h
          | ok l =>
            simp only [resolve_refs, href, hf] at h
            obtain rfl := ROut.ok.inj h
            obtain ⟨hno, hkeys⟩ := ihF root visited kvs l hf
            have h8 : lookupKey l "$ref" = none := by
              rw [lookupKey_eq_none_iff, hkeys]
              exact (lookupKey_eq_none_iff kvs "$ref").mp href
            simp [hasRefKey, h8, hno]
    · intro root visited items out h
      cases items with
      | nil =>
        simp only [resolve_refs_list] at h
        obtain rfl := RListOut.ok.inj h
        rfl
      | cons jj rest =>
        cases h5 : resolve_refs f root visited jj with
        | fuelOut => simp [resolve_refs_list, h5] at h
        | raised => simp [resolve_refs_list, h5] at h
        | ok j2 =>
          cases h6 : resolve_refs_list f root visited rest with
          | fuelOut => simp [resolve_refs_list, h5, h6] at h
          | raised => simp [resolve_refs_list, h5, h6] at h
          | ok l =>
            simp only [resolve_refs_list, h5, h6] at h
            obtain rfl := RListOut.ok.inj h
            simp [hasRefKeyList, ihJ root visited jj j2 h5,
              ihL root visited rest l h6]
    · intro root visited kvs out h
      cases kvs with
      | nil =>
        simp only [resolve_refs_fields] at h
        obtain rfl := RFieldsOut.ok.inj h
        exact ⟨rfl, rfl⟩
      | cons kv rest =>
        obtain ⟨k, v⟩ := kv
        cases h5 : resolve_refs f root visited v with
        | fuelOut => simp [resolve_refs_fields, h5] at h
        | raised => simp [resolve_refs_fields, h5] at h
        | ok j2 =>
          cases h6 : resolve_refs_fields f root visited rest with
          | fuelOut => simp [resolve_refs_fields, h5, h6] at h
          | raised => simp [resolve_refs_fields, h5, h6] at h
          | ok l =>
            simp only [resolve_refs_fields, h5, h6] at h
            obtain rfl := RFieldsOut.ok.inj h
            obtain ⟨hno, hkeys⟩ := ihF root visited rest l h6
            constructor
            · simp [hasRefKeyFields, ihJ root visited v j2 h5, hno]
            · simp [hkeys]

/-- C6: `_resolve_refs` terminates on every finite JSON Schema document,
cycles included: some fuel (one root-size allowance per distinct
reference) suffices, and any larger fuel computes the same result; a
reference already on the current resolution path is replaced by the
circular-reference placeholder instead of being expanded again; and
every normally returned document contains no unresolved `$ref` key. -/
theorem c6_resolve_refs_terminates :
    ∀ (doc : Json),
    (∃ fuel, ∀ fuel2, fuel ≤ fuel2 →
      resolve_refs fuel2 doc [] doc = resolve_refs fuel doc [] doc ∧
      resolve_refs fuel doc [] doc ≠ .fuelOut) ∧
    (∀ (fuel : Nat) (root : Json) (visited : List String)
      (kvs : List (String × Json)) (s : String),
      lookupKey kvs "$ref" = some (.str s) → s ∈ visited →
      resolve_refs (fuel + 1) root visited (.obj kvs) =
        .ok (circularPlaceholder s)) ∧
    (∀ (fuel : Nat) (root : Json) (visited : List String) (schema j : Json),
      resolve_refs fuel root visited schema = .ok j → hasRefKey j = false) := by
  intro doc
  have hne : resolve_refs (suffFuel doc doc) doc [] doc ≠ .fuelOut := by
    apply (resolve_refs_sufficient (suffFuel doc doc)).1
    exact Nat.le_of_eq rfl
  refine ⟨⟨suffFuel doc doc, ?_⟩, ?_, ?_⟩
  · intro fuel2 hle
    exact ⟨(resolve_refs_mono (suffFuel doc doc)).1 fuel2 doc [] doc hle hne, hne⟩
  · intro fuel root visited kvs s h1 h2
    simp [resolve_refs, h1, h2]
  · intro fuel root visited schema j h
    exact (resolve_refs_ok_no_ref fuel).1 root visited schema j h

/-- Witness for C6 at a concrete cyclic document
`\x7b"a": \x7b"$ref": "#/a"\x7d\x7d`: the reference already on the path
resolves to the placeholder, and a concrete full resolution returns a
document without `$ref` keys. -/
theorem c6_resolve_refs_terminates_witness :
    resolve_refs 5 (.obj [("a", .obj [("$ref", .str "#/a")])]) ["#/a"]
        (.obj [("$ref", .str "#/a")]) = .ok (circularPlaceholder "#/a") ∧
    hasRefKey (.obj [("a", circularPlaceholder "#/a")]) = false := by
  have h := c6_resolve_refs_terminates (.obj [("a", .obj [("$ref", .str "#/a")])])
  constructor
  · exact h.2.1 4 _ ["#/a"] [("$ref", .str "#/a")] "#/a" rfl (by decide)
  · exact h.2.2 9 (.obj [("a", .obj [("$ref", .str "#/a")])]) []
      (.obj [("a", .obj [("$ref", .str "#/a")])])
      (.obj [("a", circularPlaceholder "#/a")]) (by rfl)

end UiPathSdk
